import Mathlib

/-!
Verification development for the Asprova programming contest 9 solver
(`src/solvers/v09.cpp`).  The C++ source is shallowly embedded: machine
integers become `Int`/`Nat`, `double` values become the exact rational pair
type `Dbl` below (numerator/denominator, unnormalised, with the comparison
operators the source uses), `std::vector` becomes `List`, and the
interactive loop becomes explicit state passing over the `Solver` record.
-/

set_option maxRecDepth 4000

namespace APC9

/-- Exact rational stand-in for the C++ `double` values (loads, pattern
costs, cost improvements, thresholds).  Kept unnormalised so that all
arithmetic reduces in the kernel. -/
structure Dbl where
  num : Int
  den : Int
deriving DecidableEq, Repr, Inhabited

/-- Embeds an integer (e.g. an integral pattern cost) as a `Dbl`. -/
def Dbl.ofInt (n : Int) : Dbl := ⟨n, 1⟩

/-- Addition of `Dbl` values: `a/b + c/d = (ad+cb)/(bd)`. -/
def Dbl.add (x y : Dbl) : Dbl := ⟨x.num * y.den + y.num * x.den, x.den * y.den⟩

/-- Subtraction of `Dbl` values. -/
def Dbl.sub (x y : Dbl) : Dbl := ⟨x.num * y.den - y.num * x.den, x.den * y.den⟩

/-- Division of `Dbl` values: `(a/b) / (c/d) = (ad)/(bc)`. -/
def Dbl.div (x y : Dbl) : Dbl := ⟨x.num * y.den, x.den * y.num⟩

/-- The strict order `x < y` on `Dbl`, by sign-corrected cross
multiplication; agrees with the rational order whenever both denominators
are nonzero. -/
def Dbl.blt (x y : Dbl) : Bool :=
  decide ((y.num * x.den - x.num * y.den) * (x.den * y.den) > 0)

/-- The strict order `x > y` on `Dbl` (the comparison the C++ code writes
as `>`). -/
def Dbl.bgt (x y : Dbl) : Bool := Dbl.blt y x

/-- Interpretation of a `Dbl` as a rational number. -/
def Dbl.toRat (x : Dbl) : ℚ := (x.num : ℚ) / (x.den : ℚ)

/-- The two kinds of optimization parts (`OptimizationPartType` in the
source): a weekday-pattern rewrite or a weekend-pattern rewrite. -/
inductive OptimizationPartType where
  | weekDay
  | weekEnd
deriving DecidableEq, Repr, Inhabited

/-- The integer code `(int) part.type` used when building identity
strings. -/
def OptimizationPartType.code : OptimizationPartType → Int
  | .weekDay => 0
  | .weekEnd => 1

/-- `OptimizationPart` from the source: one rewrite of a single
(machine, week, side) pattern slot, remembering the old (`fromPat`) and the
new (`toPat`) code together with the cost improvement of the rewrite. -/
structure OptimizationPart where
  machine : Nat
  week : Nat
  type : OptimizationPartType
  fromPat : Int
  toPat : Int
  costImprovement : Dbl
deriving DecidableEq, Repr, Inhabited

/-- Per-resource state (`Machine` in the source). -/
structure Machine where
  weekDayPatterns : List Int
  weekEndPatterns : List Int
  weekDayPatternCosts : List Dbl
  weekEndPatternCosts : List Dbl
  loads : List Dbl
  noDelays : List Int
deriving DecidableEq, Repr, Inhabited

/-- `State` from the source: the fleet plus the last feedback scalars. -/
structure State where
  machines : List Machine
  score : Int
  noViolations : Int
  noDelays : Int
deriving DecidableEq, Repr, Inhabited

/-- Cost-table lookup `costs[i]` with a C++ `int` index (the source indexes
with `patternCode - 1`, which can be `-1` when a generator builds a part
with `toPat = 0`; that out-of-range read is undefined behaviour in C++ and
is modelled here as `0`). -/
def getCost (costs : List Dbl) (i : Int) : Dbl :=
  if i < 0 then ⟨0, 1⟩ else costs.getD i.toNat ⟨0, 1⟩

/-- `OptimizationPart::weekDay` from the source. -/
def OptimizationPart.mkWeekDay (s : State) (machine week : Nat) (newPattern : Int) :
    OptimizationPart :=
  let m := s.machines.getD machine default
  { machine := machine
    week := week
    type := .weekDay
    fromPat := m.weekDayPatterns.getD week 0
    toPat := newPattern
    costImprovement :=
      (getCost m.weekDayPatternCosts (m.weekDayPatterns.getD week 0 - 1)).sub
        (getCost m.weekDayPatternCosts (newPattern - 1)) }

/-- `OptimizationPart::weekEnd` from the source. -/
def OptimizationPart.mkWeekEnd (s : State) (machine week : Nat) (newPattern : Int) :
    OptimizationPart :=
  let m := s.machines.getD machine default
  { machine := machine
    week := week
    type := .weekEnd
    fromPat := m.weekEndPatterns.getD week 0
    toPat := newPattern
    costImprovement :=
      (getCost m.weekEndPatternCosts (m.weekEndPatterns.getD week 0 - 1)).sub
        (getCost m.weekEndPatternCosts (newPattern - 1)) }

/-- Reads the pattern slot a part addresses. -/
def getSlot (s : State) (machine week : Nat) (ty : OptimizationPartType) : Int :=
  match ty with
  | .weekDay => (s.machines.getD machine default).weekDayPatterns.getD week 0
  | .weekEnd => (s.machines.getD machine default).weekEndPatterns.getD week 0

/-- Writes the pattern slot a part addresses (no-op out of range, matching
the total model of the in-range C++ write). -/
def setSlot (s : State) (machine week : Nat) (ty : OptimizationPartType) (v : Int) : State :=
  let m := s.machines.getD machine default
  match ty with
  | .weekDay =>
      { s with machines :=
          s.machines.set machine { m with weekDayPatterns := m.weekDayPatterns.set week v } }
  | .weekEnd =>
      { s with machines :=
          s.machines.set machine { m with weekEndPatterns := m.weekEndPatterns.set week v } }

/-- `OptimizationPart::apply`: writes `toPat` into the addressed slot. -/
def OptimizationPart.apply (p : OptimizationPart) (s : State) : State :=
  setSlot s p.machine p.week p.type p.toPat

/-- `OptimizationPart::undo`: writes `fromPat` into the addressed slot. -/
def OptimizationPart.undo (p : OptimizationPart) (s : State) : State :=
  setSlot s p.machine p.week p.type p.fromPat

/-- The identity fragment one part contributes to a move's identity
string: `machine-week-typeCode-from-to`. -/
def OptimizationPart.idStr (p : OptimizationPart) : String :=
  toString p.machine ++ "-" ++ toString p.week ++ "-" ++ toString p.type.code
    ++ "-" ++ toString p.fromPat ++ "-" ++ toString p.toPat

/-- The identity string the `Optimization` constructor derives from the
ordered part list (fragments joined by `_`). -/
def optimizationId (parts : List OptimizationPart) : String :=
  String.intercalate "_" (parts.map OptimizationPart.idStr)

/-- The aggregate cost improvement the `Optimization` constructor sums over
the parts. -/
def optimizationCost (parts : List OptimizationPart) : Dbl :=
  parts.foldl (fun acc p => acc.add p.costImprovement) ⟨0, 1⟩

/-- `Optimization` from the source: a named ordered group of parts with the
derived identity and aggregate cost improvement. -/
structure Optimization where
  id : String
  name : String
  costImprovement : Dbl
  parts : List OptimizationPart
deriving DecidableEq, Repr, Inhabited

/-- The `Optimization` constructor from the source: the identity and the
aggregate cost improvement are computed from the ordered parts alone. -/
def Optimization.make (name : String) (parts : List OptimizationPart) : Optimization :=
  { id := optimizationId parts
    name := name
    costImprovement := optimizationCost parts
    parts := parts }

/-- `Optimization::apply`: applies the parts in order. -/
def Optimization.apply (o : Optimization) (s : State) : State :=
  o.parts.foldl (fun t p => p.apply t) s

/-- `Optimization::undo`: undoes the parts in order (the same order as
`apply`, exactly as the source does). -/
def Optimization.undo (o : Optimization) (s : State) : State :=
  o.parts.foldl (fun t p => p.undo t) s

/-- The solver record (`Solver` in the source) together with the
parameters read from the initialization header. -/
structure Solver where
  noWeeks : Nat
  noMachines : Nat
  maxChanges : Int
  noInteractions : Nat
  states : List State
  badOptimizations : List String
  reduceGlobalFailed : Bool
  previousOptimization : Option Optimization
  bestScore : Int
deriving DecidableEq, Repr, Inhabited

/-- `getLastOperatingWeeks` for one side: the largest week index whose
pattern code is not `1`, or `-1` when every week is shut down.  The second
argument is `noWeeks` (the source scans `noWeeks - 1` down to `0`). -/
def lastOperating (pat : List Int) : Nat → Int
  | 0 => -1
  | n + 1 => if pat.getD n 0 ≠ 1 then (n : Int) else lastOperating pat n

/-- `Solver::getChanges`: the number of adjacent-week inequalities of one
pattern series. -/
def getChanges (noWeeks : Nat) (pat : List Int) : Int :=
  (((List.range (noWeeks - 1)).filter fun i => pat.getD i 0 ≠ pat.getD (i + 1) 0).length : Int)

/-- `Solver::getRemainingChanges`: the per-machine change budget left. -/
def getRemainingChanges (slv : Solver) (mach : Machine) : Int :=
  slv.maxChanges - getChanges slv.noWeeks mach.weekDayPatterns
    - getChanges slv.noWeeks mach.weekEndPatterns

/-- The scanning loop of the `canReduceGlobalWeekDay` /
`canReduceGlobalWeekEnd` guards: accumulates the load sum over the given
week indices and stops (reporting `false`) at the first week whose pattern
differs from `p0`, exactly like the `break` in the source. -/
def rgScan (pat : List Int) (loads : List Dbl) (p0 : Int) :
    List Nat → Dbl → Dbl × Bool
  | [], s => (s, true)
  | j :: js, s =>
      let s' := s.add (loads.getD j ⟨0, 1⟩)
      if pat.getD j 0 ≠ p0 then (s', false)
      else rgScan pat loads p0 js s'

/-- The `canReduceGlobalWeekDay` guard of `Solver::generateOptimizations`:
weekday operating, weekday pattern constant on weeks `0..lastWD`, and —
unless `noInteractions == 300` — mean weekday load over that range at most
`0.75`. -/
def canRGWeekDay (slv : Solver) (mach : Machine) : Bool :=
  let lastWD := lastOperating mach.weekDayPatterns slv.noWeeks
  let scan := rgScan mach.weekDayPatterns mach.loads (mach.weekDayPatterns.getD 0 0)
      (List.range (lastWD + 1).toNat) ⟨0, 1⟩
  (decide (lastWD ≠ -1) && scan.2)
    && !(decide (slv.noInteractions ≠ 300)
          && (scan.1.div (Dbl.ofInt (lastWD + 1))).bgt ⟨3, 4⟩)

/-- The `canReduceGlobalWeekEnd` guard: same shape, but the load sum runs
over weeks `1..lastWE` (week 0 is skipped by the source's loop) while the
divisor is still `lastWE + 1`. -/
def canRGWeekEnd (slv : Solver) (mach : Machine) : Bool :=
  let lastWE := lastOperating mach.weekEndPatterns slv.noWeeks
  let scan := rgScan mach.weekEndPatterns mach.loads (mach.weekEndPatterns.getD 0 0)
      (List.range' 1 lastWE.toNat) ⟨0, 1⟩
  (decide (lastWE ≠ -1) && scan.2)
    && !(decide (slv.noInteractions ≠ 300)
          && (scan.1.div (Dbl.ofInt (lastWE + 1))).bgt ⟨3, 4⟩)

/-- The parts of the per-machine combined `ReduceGlobal<i>` move: for each
week `0..min(lastWD, lastWE)` a weekday part and a weekend part, each
reducing the code by one. -/
def rgCombinedParts (s : State) (i : Nat) (lastWD lastWE : Int) : List OptimizationPart :=
  let mach := s.machines.getD i default
  (List.range (min lastWD lastWE + 1).toNat).flatMap fun j =>
    [OptimizationPart.mkWeekDay s i j (mach.weekDayPatterns.getD j 0 - 1),
     OptimizationPart.mkWeekEnd s i j (mach.weekEndPatterns.getD j 0 - 1)]

/-- The parts of `ReduceGlobalWeekDay<i>`: reduce the weekday code of every
week `0..lastWD` by one. -/
def rgWeekDayParts (s : State) (i : Nat) (lastWD : Int) : List OptimizationPart :=
  let mach := s.machines.getD i default
  (List.range (lastWD + 1).toNat).map fun j =>
    OptimizationPart.mkWeekDay s i j (mach.weekDayPatterns.getD j 0 - 1)

/-- The parts of `ReduceGlobalWeekEnd<i>`: reduce the weekend code of every
week `0..lastWE` by one. -/
def rgWeekEndParts (s : State) (i : Nat) (lastWE : Int) : List OptimizationPart :=
  let mach := s.machines.getD i default
  (List.range (lastWE + 1).toNat).map fun j =>
    OptimizationPart.mkWeekEnd s i j (mach.weekEndPatterns.getD j 0 - 1)

/-- The `existingSplits` computation: scans weeks `1..lastOp` and either
opens a new run `(j, 1)` at a pattern change or grows the current run; the
accumulator-free equivalent of the source's push-back/increment loop.  The
first argument is the remaining number of weeks to scan. -/
def runsAux (pat : List Int) : Nat → Nat → Nat → Nat → List (Nat × Nat)
  | 0, start, len, _ => [(start, len)]
  | fuel + 1, start, len, j =>
      if pat.getD j 0 ≠ pat.getD (j - 1) 0 then
        (start, len) :: runsAux pat fuel j 1 (j + 1)
      else
        runsAux pat fuel start (len + 1) (j + 1)

/-- `existingSplits`: the maximal runs of equal pattern code over the weeks
`0..lastOp`, as `(start, size)` pairs in week order. -/
def existingSplits (pat : List Int) (lastOp : Int) : List (Nat × Nat) :=
  runsAux pat lastOp.toNat 0 1 1

/-- The inner `canImprove` loop of the ImproveSplit generators: sums the
loads over the run and stops (reporting `false`) at the first week whose
pattern code is `1`, like the `break` in the source. -/
def improveScan (pat : List Int) (loads : List Dbl) :
    List Nat → Dbl → Dbl × Bool
  | [], s => (s, true)
  | j :: js, s =>
      let s' := s.add (loads.getD j ⟨0, 1⟩)
      if pat.getD j 0 = 1 then (s', false)
      else improveScan pat loads js s'

/-- One iteration of the ImproveSplit generator: for the run `r` emit (as a
singleton list) the move reducing every week of the run by one code, if no
week of the run has code `1` and the mean load over the run is at most
`0.9`; otherwise emit nothing. -/
def improveSplitRun (pat : List Int) (loads : List Dbl)
    (mk : Nat → Int → OptimizationPart) (nm : String) (r : Nat × Nat) :
    List Optimization :=
  let js := List.range' r.1 r.2
  let scan := improveScan pat loads js ⟨0, 1⟩
  let canImprove := scan.2 && !((scan.1.div (Dbl.ofInt (r.2 : Int))).bgt ⟨9, 10⟩)
  if canImprove then
    [Optimization.make nm (js.map fun j => mk j (pat.getD j 0 - 1))]
  else []

/-- The ImproveSplit generator for one side of one machine: one emission
attempt per run of `existingSplits`, in run order. -/
def improveSplitOpts (pat : List Int) (loads : List Dbl)
    (mk : Nat → Int → OptimizationPart) (nm : String) (runs : List (Nat × Nat)) :
    List Optimization :=
  runs.flatMap (improveSplitRun pat loads mk nm)

/-- The CreateSplit loop: walks `j` downward from the last operating week,
accumulating loads; stops as soon as the running mean (divided by
`divBase - j + 1`, where `divBase` is the value the source uses — the
weekday last operating week on both sides) exceeds `0.4`; otherwise pushes
a part reducing week `j` by one code and decrements `newPatterns[j]`. -/
def csLoop (pat : List Int) (loads : List Dbl) (mk : Nat → Int → OptimizationPart)
    (divBase : Int) :
    Nat → Dbl → List OptimizationPart → List Int → List OptimizationPart × List Int
  | j, loadSum, parts, newPat =>
      let ls := loadSum.add (loads.getD j ⟨0, 1⟩)
      if (ls.div (Dbl.ofInt (divBase - (j : Int) + 1))).bgt ⟨2, 5⟩ then (parts, newPat)
      else
        let parts' := parts ++ [mk j (pat.getD j 0 - 1)]
        let newPat' := newPat.set j (newPat.getD j 0 - 1)
        match j with
        | 0 => (parts', newPat')
        | jj + 1 => csLoop pat loads mk divBase jj ls parts' newPat'

/-- The CreateSplit generator for one side of one machine: runs the loop
from `lastOp` down and emits the move when the collected part list is
nonempty and the change budget allows the new pattern series
(`maxChanges - newChanges - otherChanges ≥ 0`). -/
def createSplitOpts (slv : Solver) (pat : List Int) (loads : List Dbl)
    (mk : Nat → Int → OptimizationPart) (nm : String) (lastOp : Int)
    (divBase : Int) (otherChanges : Int) : List Optimization :=
  let res := csLoop pat loads mk divBase lastOp.toNat ⟨0, 1⟩ [] pat
  let newChanges := getChanges slv.noWeeks res.2
  if decide (res.1 ≠ []) && decide (slv.maxChanges - newChanges - otherChanges ≥ 0) then
    [Optimization.make nm res.1]
  else []

/-- The block of candidate moves `Solver::generateOptimizations` emits for
machine `i`, in the source's emission order. -/
def machineBlock (slv : Solver) (s : State) (i : Nat) : List Optimization :=
  let mach := s.machines.getD i default
  let lastWD := lastOperating mach.weekDayPatterns slv.noWeeks
  let lastWE := lastOperating mach.weekEndPatterns slv.noWeeks
  let canWD := canRGWeekDay slv mach
  let canWE := canRGWeekEnd slv mach
  let weekDayChanges := getChanges slv.noWeeks mach.weekDayPatterns
  let weekEndChanges := getChanges slv.noWeeks mach.weekEndPatterns
  (if canWD && canWE then
      [Optimization.make ("ReduceGlobal" ++ toString i) (rgCombinedParts s i lastWD lastWE)]
    else [])
  ++ (if canWD then
        [Optimization.make ("ReduceGlobalWeekDay" ++ toString i) (rgWeekDayParts s i lastWD)]
      else [])
  ++ (if canWE then
        [Optimization.make ("ReduceGlobalWeekEnd" ++ toString i) (rgWeekEndParts s i lastWE)]
      else [])
  ++ (if decide (lastWD ≠ -1) then
        improveSplitOpts mach.weekDayPatterns mach.loads
          (fun j npat => OptimizationPart.mkWeekDay s i j npat)
          ("ImproveSplitWeekDay" ++ toString i) (existingSplits mach.weekDayPatterns lastWD)
        ++ createSplitOpts slv mach.weekDayPatterns mach.loads
            (fun j npat => OptimizationPart.mkWeekDay s i j npat)
            ("CreateSplitWeekDay" ++ toString i) lastWD lastWD weekEndChanges
      else [])
  ++ (if decide (lastWE ≠ -1) then
        improveSplitOpts mach.weekEndPatterns mach.loads
          (fun j npat => OptimizationPart.mkWeekEnd s i j npat)
          ("ImproveSplitWeekEnd" ++ toString i) (existingSplits mach.weekEndPatterns lastWE)
        ++ createSplitOpts slv mach.weekEndPatterns mach.loads
            (fun j npat => OptimizationPart.mkWeekEnd s i j npat)
            ("CreateSplitWeekEnd" ++ toString i) lastWE lastWD weekDayChanges
      else [])

/-- The `reduceGlobalParts` accumulator of `Solver::generateOptimizations`:
the concatenation, over all machines that qualify for the combined
per-machine reduction, of their combined parts. -/
def fleetParts (slv : Solver) (s : State) : List OptimizationPart :=
  (List.range slv.noMachines).flatMap fun i =>
    let mach := s.machines.getD i default
    if canRGWeekDay slv mach && canRGWeekEnd slv mach then
      rgCombinedParts s i (lastOperating mach.weekDayPatterns slv.noWeeks)
        (lastOperating mach.weekEndPatterns slv.noWeeks)
    else []

/-- The downward walk of the Shutdown generator: from the last operating
week down, stop at the first week with positive load; otherwise extend
`partsAll` / `partsWeekDaysOnly` / `partsWeekEndsOnly` with parts setting
the week's code(s) to 1. -/
def shutdownWalk (s : State) (i : Nat) (loads : List Dbl) :
    Nat → List OptimizationPart × List OptimizationPart × List OptimizationPart →
    List OptimizationPart × List OptimizationPart × List OptimizationPart
  | j, acc =>
      if (loads.getD j ⟨0, 1⟩).bgt ⟨0, 1⟩ then acc
      else
        let acc' := (acc.1 ++ [OptimizationPart.mkWeekDay s i j 1, OptimizationPart.mkWeekEnd s i j 1],
                     acc.2.1 ++ [OptimizationPart.mkWeekDay s i j 1],
                     acc.2.2 ++ [OptimizationPart.mkWeekEnd s i j 1])
        match j with
        | 0 => acc'
        | jj + 1 => shutdownWalk s i loads jj acc'

/-- The Shutdown contribution of machine `i`: skipped when the machine's
remaining change budget is exactly `0`; otherwise the walked parts, with
the single-change case picking the side with the greater aggregate cost
improvement. -/
def shutdownMachineParts (slv : Solver) (s : State) (i : Nat) : List OptimizationPart :=
  let mach := s.machines.getD i default
  let remaining := getRemainingChanges slv mach
  if remaining = 0 then []
  else
    let lastWD := lastOperating mach.weekDayPatterns slv.noWeeks
    let lastWE := lastOperating mach.weekEndPatterns slv.noWeeks
    let top := max lastWD lastWE
    let walked :=
      if top < 0 then ([], [], [])
      else shutdownWalk s i mach.loads top.toNat ([], [], [])
    if remaining = 1 then
      if (Optimization.make "" walked.2.1).costImprovement.bgt
          (Optimization.make "" walked.2.2).costImprovement then
        walked.2.1
      else walked.2.2
    else walked.1

/-- The parts of the Shutdown move: machine contributions concatenated in
machine order. -/
def shutdownParts (slv : Solver) (s : State) : List OptimizationPart :=
  (List.range slv.noMachines).flatMap (shutdownMachineParts slv s)

/-- `Solver::generateOptimizations`: all machine blocks in machine order,
then the fleet-wide `ReduceGlobal` compound (when `noInteractions ≠ 300`
and it has not failed), then the Shutdown move (when the state history
length equals `noInteractions`, i.e. in the round that constructs the final
outgoing grid). -/
def Solver.generateOptimizations (slv : Solver) (s : State) : List Optimization :=
  ((List.range slv.noMachines).flatMap (machineBlock slv s))
  ++ (if decide (slv.noInteractions ≠ 300) && !slv.reduceGlobalFailed then
        [Optimization.make "ReduceGlobal" (fleetParts slv s)]
      else [])
  ++ (if slv.states.length = slv.noInteractions then
        [Optimization.make "Shutdown" (shutdownParts slv s)]
      else [])

/-- The candidate-selection loop of `Solver::refine`: fold over the
generated moves keeping the strictly best cost improvement so far (seeded
with `-1`), skipping blacklisted identities. -/
def selectBest (bad : List String) (opts : List Optimization) : Option Optimization :=
  (opts.foldl
    (fun acc o =>
      if o.costImprovement.bgt acc.2 && !(bad.contains o.id) then (some o, o.costImprovement)
      else acc)
    ((none : Option Optimization), Dbl.ofInt (-1))).1

/-- The most recent state (`states.back()` / `states[states.size() - 1]`). -/
def Solver.lastState (slv : Solver) : State := (slv.states.getLast?).getD default

/-- Replaces the most recent state, modelling the in-place mutation of
`states.back()`. -/
def Solver.setLastState (slv : Solver) (s : State) : Solver :=
  { slv with states := slv.states.dropLast ++ [s] }

/-- The first half of `Solver::refine`: update `bestScore`, then — when a
previous optimization exists and the feedback score is `0` or dropped below
the best score — undo it, blacklist its identity, and set
`reduceGlobalFailed` when its name is exactly `"ReduceGlobal"`. -/
def Solver.revertStep (slv : Solver) : Solver :=
  let s := slv.lastState
  let best := max slv.bestScore s.score
  match slv.previousOptimization with
  | some o =>
      if s.score = 0 ∨ s.score < best then
        { slv with
          states := slv.states.dropLast ++ [o.undo s]
          bestScore := best
          badOptimizations := o.id :: slv.badOptimizations
          reduceGlobalFailed := slv.reduceGlobalFailed || (o.name == "ReduceGlobal") }
      else { slv with bestScore := best }
  | none => { slv with bestScore := best }

/-- The second half of `Solver::refine`: generate candidates from the
current state, pick the best non-blacklisted one, apply it if any, and
record it (or `none`) as the previous optimization. -/
def Solver.applyStep (slv : Solver) : Solver :=
  match selectBest slv.badOptimizations (slv.generateOptimizations slv.lastState) with
  | some o =>
      { slv with
        states := slv.states.dropLast ++ [o.apply slv.lastState]
        previousOptimization := some o }
  | none => { slv with previousOptimization := none }

/-- `Solver::refine`. -/
def Solver.refine (slv : Solver) : Solver := slv.revertStep.applyStep

/-- One feedback block of the judge: the scalars plus per-machine loads and
delay counts. -/
structure Feedback where
  score : Int
  noViolations : Int
  noDelays : Int
  perMachine : List (List Dbl × List Int)
deriving Repr, Inhabited

/-- Reading a feedback block into the current state (the `std::cin` reads
of the interaction loop). -/
def Solver.setFeedback (slv : Solver) (fb : Feedback) : Solver :=
  let s := slv.lastState
  slv.setLastState
    { s with
      score := fb.score
      noViolations := fb.noViolations
      noDelays := fb.noDelays
      machines := s.machines.mapIdx fun j m =>
        { m with
          loads := (fb.perMachine.getD j ([], [])).1
          noDelays := (fb.perMachine.getD j ([], [])).2 } }

/-- `State nextState(currentState); states.push_back(nextState)`. -/
def Solver.pushCopy (slv : Solver) : Solver :=
  { slv with states := slv.states ++ [slv.lastState] }

/-- One non-final turn of the interaction loop: read the feedback into the
current state, push a copy, and refine it (the emission of the grid has no
effect on the solver state and is omitted). -/
def Solver.step (slv : Solver) (fb : Feedback) : Solver :=
  ((slv.setFeedback fb).pushCopy).refine

/-- Runs the interaction loop over a list of feedback blocks (each one
followed by a refine; the final interaction of the real loop reads feedback
without refining and is irrelevant to the solver state). -/
def Solver.runSteps (slv : Solver) (fbs : List Feedback) : Solver :=
  fbs.foldl Solver.step slv

/-- A machine as `main` creates it: patterns resized to `noWeeks` (zeroes),
cost tables as read from the header, feedback arrays empty. -/
def initMachine (noWeeks : Nat) (costs : List Dbl × List Dbl) : Machine :=
  { weekDayPatterns := List.replicate noWeeks 0
    weekEndPatterns := List.replicate noWeeks 0
    weekDayPatternCosts := costs.1
    weekEndPatternCosts := costs.2
    loads := []
    noDelays := [] }

/-- `Solver::setInitialPatterns`: fill both sides of every machine of the
initial state with code 9. -/
def Solver.setInitialPatterns (slv : Solver) : Solver :=
  match slv.states with
  | [] => slv
  | s :: rest =>
      { slv with states :=
          { s with machines := s.machines.map fun m =>
              { m with
                weekDayPatterns := List.replicate slv.noWeeks 9
                weekEndPatterns := List.replicate slv.noWeeks 9 } } :: rest }

/-- The solver exactly as `main` sets it up before the first emission:
constructed from the header, machines initialized from the cost tables, and
`setInitialPatterns` applied. -/
def mkSolver (noWeeks noMachines : Nat) (maxChanges : Int) (noInteractions : Nat)
    (costs : List (List Dbl × List Dbl)) : Solver :=
  Solver.setInitialPatterns
    { noWeeks := noWeeks
      noMachines := noMachines
      maxChanges := maxChanges
      noInteractions := noInteractions
      states := [{ machines := (List.range noMachines).map fun i =>
                     initMachine noWeeks (costs.getD i ([], []))
                   score := 0, noViolations := 0, noDelays := 0 }]
      badOptimizations := []
      reduceGlobalFailed := false
      previousOptimization := none
      bestScore := 0 }

/-! ### Spec-side definitions

These definitions follow the wording of the specification (full-range load
sums, run qualification, slot positions) and are compared with the
source-derived definitions above in the refinement theorems. -/

/-- The load sum over a list of week indices (the specification's
`Σ load[j]`). -/
def loadSumRange (loads : List Dbl) (js : List Nat) : Dbl :=
  js.foldl (fun a j => a.add (loads.getD j ⟨0, 1⟩)) ⟨0, 1⟩

/-- Spec-side ReduceGlobalWeekDay guard: the weekday side is operating, its
pattern is constant over the operating weeks `0..lastWD`, and (unless
`N = 300`) the mean weekday load over those weeks does not exceed the
threshold `3/4`. -/
def specCanRGWeekDay (slv : Solver) (mach : Machine) : Prop :=
  let lastWD := lastOperating mach.weekDayPatterns slv.noWeeks
  lastWD ≠ -1 ∧
  (∀ j ∈ List.range (lastWD + 1).toNat,
      mach.weekDayPatterns.getD j 0 = mach.weekDayPatterns.getD 0 0) ∧
  (slv.noInteractions ≠ 300 →
    ((loadSumRange mach.loads (List.range (lastWD + 1).toNat)).div
        (Dbl.ofInt (lastWD + 1))).bgt ⟨3, 4⟩ = false)

/-- Spec-side ReduceGlobalWeekEnd guard, as the code actually implements
it: the weekend pattern is constant over `0..lastWE`, and (unless
`N = 300`) the sum of the loads over weeks `1..lastWE` only — week 0 is
excluded — divided by `lastWE + 1` does not exceed `3/4`. -/
def specCanRGWeekEnd (slv : Solver) (mach : Machine) : Prop :=
  let lastWE := lastOperating mach.weekEndPatterns slv.noWeeks
  lastWE ≠ -1 ∧
  (∀ j ∈ List.range' 1 lastWE.toNat,
      mach.weekEndPatterns.getD j 0 = mach.weekEndPatterns.getD 0 0) ∧
  (slv.noInteractions ≠ 300 →
    ((loadSumRange mach.loads (List.range' 1 lastWE.toNat)).div
        (Dbl.ofInt (lastWE + 1))).bgt ⟨3, 4⟩ = false)

/-- Spec-side run qualification for ImproveSplit: no week of the run has
pattern code 1, and the mean load over the whole run does not exceed
`9/10`. -/
def runQualifies (pat : List Int) (loads : List Dbl) (r : Nat × Nat) : Bool :=
  decide (∀ j ∈ List.range' r.1 r.2, pat.getD j 0 ≠ 1)
    && !(((loadSumRange loads (List.range' r.1 r.2)).div (Dbl.ofInt (r.2 : Int))).bgt ⟨9, 10⟩)

/-- Spec-side ImproveSplit move for a run: reduce every week of the run by
one code, in week order. -/
def runReduceMove (pat : List Int) (mk : Nat → Int → OptimizationPart) (nm : String)
    (r : Nat × Nat) : Optimization :=
  Optimization.make nm ((List.range' r.1 r.2).map fun j => mk j (pat.getD j 0 - 1))

/-- The slot position a part addresses. -/
def partPos (p : OptimizationPart) : Nat × Nat × OptimizationPartType :=
  (p.machine, p.week, p.type)

/-- A state agrees with a part when the addressed slot currently holds the
part's `fromPat` value (the situation in which the part was built). -/
def slotAgrees (s : State) (p : OptimizationPart) : Prop :=
  getSlot s p.machine p.week p.type = p.fromPat

/-! ### Concrete instances

Concrete solvers, states and feedback scripts used by the counterexample
and witness theorems.  `steepCosts`/`geomCosts` are the cost tables and
`budgetRunFeedbacks` the judge feedback script of the concrete interactive
run that drives the solver into emitting pattern code `0` (and, with
`maxChanges = 1`, into exceeding the change budget). -/

/-- Weekday cost table of the concrete run: ascending in steps of 100. -/
def steepCosts : List Dbl :=
  [⟨0, 1⟩, ⟨100, 1⟩, ⟨200, 1⟩, ⟨300, 1⟩, ⟨400, 1⟩, ⟨500, 1⟩, ⟨600, 1⟩, ⟨700, 1⟩, ⟨800, 1⟩]

/-- Weekend cost table of the concrete run: ascending powers of two. -/
def geomCosts : List Dbl :=
  [⟨0, 1⟩, ⟨1, 1⟩, ⟨2, 1⟩, ⟨4, 1⟩, ⟨8, 1⟩, ⟨16, 1⟩, ⟨32, 1⟩, ⟨64, 1⟩, ⟨128, 1⟩]

/-- One feedback block of the concrete run with loads `(1, 0)`. -/
def loadedFb (sc : Int) : Feedback := ⟨sc, 0, 0, [([⟨1, 1⟩, ⟨0, 1⟩], [0, 0])]⟩

/-- One feedback block of the concrete run with loads `(0, 0)`. -/
def idleFb (sc : Int) : Feedback := ⟨sc, 0, 0, [([⟨0, 1⟩, ⟨0, 1⟩], [0, 0])]⟩

/-- The judge feedback script of the concrete run: score `1` rejects the
previously applied move (it drops below the best score), an increasing
score accepts it. -/
def budgetRunFeedbacks : List Feedback :=
  [loadedFb 2, loadedFb 1, loadedFb 3, loadedFb 1, loadedFb 4, loadedFb 1,
   loadedFb 5, loadedFb 1, loadedFb 6, loadedFb 1, loadedFb 7, loadedFb 1,
   loadedFb 8, loadedFb 1, loadedFb 9, loadedFb 1, loadedFb 1, loadedFb 1,
   loadedFb 1, loadedFb 10, loadedFb 11, loadedFb 12, loadedFb 13, loadedFb 14,
   loadedFb 15, loadedFb 16, loadedFb 17, idleFb 18]

/-- The solver of the pattern-code run: `W = 2`, `M = 1`, `maxChanges = 10`,
`N = 30`. -/
def c2Solver : Solver := mkSolver 2 1 10 30 [(steepCosts, geomCosts)]

/-- The solver state after the full 28-step feedback script. -/
def c2Final : Solver := c2Solver.runSteps budgetRunFeedbacks

/-- The solver of the change-budget run: identical but `maxChanges = 1`. -/
def c4Solver : Solver := mkSolver 2 1 1 30 [(steepCosts, geomCosts)]

/-- The budget-run state after 27 steps (up to and including the combined
`ReduceGlobal0` application). -/
def c4Final : Solver := c4Solver.runSteps (budgetRunFeedbacks.take 27)

/-- A nine-entry constant cost table (every pattern code costs 5). -/
def flatCosts : List Dbl :=
  [⟨5, 1⟩, ⟨5, 1⟩, ⟨5, 1⟩, ⟨5, 1⟩, ⟨5, 1⟩, ⟨5, 1⟩, ⟨5, 1⟩, ⟨5, 1⟩, ⟨5, 1⟩]

/-- A machine with a single week at code 9 on both sides, zero load, and
constant cost tables. -/
def flatMachine : Machine :=
  { weekDayPatterns := [9]
    weekEndPatterns := [9]
    weekDayPatternCosts := flatCosts
    weekEndPatternCosts := flatCosts
    loads := [⟨0, 1⟩]
    noDelays := [0] }

/-- Concrete solver state for the C1 counterexample: a previous move
exists, the feedback reports `noDelays = 1` with a score of `5` that does
not drop below the best score `3`. -/
def c1CounterSolver : Solver :=
  { noWeeks := 1
    noMachines := 1
    maxChanges := 5
    noInteractions := 7
    states := [{ machines := [flatMachine], score := 5, noViolations := 0, noDelays := 1 }]
    badOptimizations := []
    reduceGlobalFailed := false
    previousOptimization := some (Optimization.make "X" [⟨0, 0, .weekDay, 9, 8, ⟨1, 1⟩⟩])
    bestScore := 3 }

/-- Concrete solver state for the C1 witness: a previous move exists and
the feedback score `2` dropped below the best score `3`. -/
def c1WitnessSolver : Solver :=
  { c1CounterSolver with
    states := [{ machines := [flatMachine], score := 2, noViolations := 0, noDelays := 0 }] }

/-- The previous move recorded in `c1CounterSolver`/`c1WitnessSolver`. -/
def c1PrevMove : Optimization := Optimization.make "X" [⟨0, 0, .weekDay, 9, 8, ⟨1, 1⟩⟩]

/-- Concrete solver for the C3 counterexample: constant cost tables make
every candidate's cost improvement exactly `0`, yet one is applied. -/
def c3CounterSolver : Solver :=
  { noWeeks := 1
    noMachines := 1
    maxChanges := 5
    noInteractions := 7
    states := [{ machines := [flatMachine], score := 4, noViolations := 0, noDelays := 0 }]
    badOptimizations := []
    reduceGlobalFailed := false
    previousOptimization := none
    bestScore := 0 }

/-- A machine whose weekday side has two one-week runs (codes 3 and 2),
both qualifying for ImproveSplit under zero load. -/
def twoRunMachine : Machine :=
  { weekDayPatterns := [3, 2]
    weekEndPatterns := [9, 9]
    weekDayPatternCosts := steepCosts
    weekEndPatternCosts := geomCosts
    loads := [⟨0, 1⟩, ⟨0, 1⟩]
    noDelays := [0, 0] }

/-- Solver wrapper for the C5 counterexample state. -/
def c5CounterSolver : Solver :=
  { noWeeks := 2
    noMachines := 1
    maxChanges := 10
    noInteractions := 5
    states := [{ machines := [twoRunMachine], score := 4, noViolations := 0, noDelays := 0 }]
    badOptimizations := []
    reduceGlobalFailed := false
    previousOptimization := none
    bestScore := 0 }

/-- A machine with constant weekday pattern and mean load `0.7` — between
the specified threshold `0.6` and the implemented threshold `0.75`. -/
def meanLoadMachine : Machine :=
  { weekDayPatterns := [9, 9]
    weekEndPatterns := [9, 9]
    weekDayPatternCosts := steepCosts
    weekEndPatternCosts := geomCosts
    loads := [⟨7, 10⟩, ⟨7, 10⟩]
    noDelays := [0, 0] }

/-- Solver wrapper for the C6 counterexample state. -/
def c6CounterSolver : Solver :=
  { noWeeks := 2
    noMachines := 1
    maxChanges := 10
    noInteractions := 5
    states := [{ machines := [meanLoadMachine], score := 4, noViolations := 0, noDelays := 0 }]
    badOptimizations := []
    reduceGlobalFailed := false
    previousOptimization := none
    bestScore := 0 }

/-- A machine whose week-0 load alone pushes the full weekend mean above
`0.75`, while the week-0-excluding sum the code uses stays at `0`. -/
def frontLoadMachine : Machine :=
  { weekDayPatterns := [9, 9]
    weekEndPatterns := [9, 9]
    weekDayPatternCosts := steepCosts
    weekEndPatternCosts := geomCosts
    loads := [⟨2, 1⟩, ⟨0, 1⟩]
    noDelays := [0, 0] }

/-- Solver wrapper for the C7 counterexample state. -/
def c7CounterSolver : Solver :=
  { noWeeks := 2
    noMachines := 1
    maxChanges := 10
    noInteractions := 5
    states := [{ machines := [frontLoadMachine], score := 4, noViolations := 0, noDelays := 0 }]
    badOptimizations := []
    reduceGlobalFailed := false
    previousOptimization := none
    bestScore := 0 }

/-- A single-part move whose `fromPat` (5) differs from the slot value of
the state it is applied to. -/
def mismatchedMove : Optimization :=
  Optimization.make "X" [⟨0, 0, .weekDay, 5, 4, ⟨1, 1⟩⟩]

/-- A state whose machine-0 week-0 weekday code is 6 — not the `fromPat`
of `mismatchedMove`. -/
def mismatchedState : State :=
  { machines := [{ flatMachine with weekDayPatterns := [6] }]
    score := 0, noViolations := 0, noDelays := 0 }

/-- A two-part move (distinct slots, `fromPat` matching `roundTripState`)
for the C9 witness. -/
def matchedMove : Optimization :=
  Optimization.make "RG"
    [⟨0, 0, .weekDay, 9, 8, ⟨1, 1⟩⟩, ⟨0, 0, .weekEnd, 9, 8, ⟨1, 1⟩⟩]

/-- The state the C9 witness round-trips through `matchedMove`. -/
def roundTripState : State :=
  { machines := [flatMachine], score := 0, noViolations := 0, noDelays := 0 }

/-- A single part shared by the two differently-named moves of the C10
witness. -/
def c10Part : OptimizationPart := ⟨0, 0, .weekDay, 9, 8, ⟨1, 1⟩⟩

instance (s : State) (p : OptimizationPart) : Decidable (slotAgrees s p) := by
  unfold slotAgrees
  infer_instance

instance (slv : Solver) (mach : Machine) : Decidable (specCanRGWeekDay slv mach) := by
  unfold specCanRGWeekDay
  infer_instance

instance (slv : Solver) (mach : Machine) : Decidable (specCanRGWeekEnd slv mach) := by
  unfold specCanRGWeekEnd
  infer_instance

/-! ### Helper lemmas -/

theorem Dbl.bgt_den_ne {x y : Dbl} (h : x.bgt y = true) : x.den ≠ 0 ∧ y.den ≠ 0 := by
  unfold Dbl.bgt Dbl.blt at h
  simp only [decide_eq_true_eq, gt_iff_lt] at h
  constructor
  · intro hx
    rw [hx] at h
    simp at h
  · intro hy
    rw [hy] at h
    simp at h

theorem Dbl.bgt_iff_lt {x y : Dbl} (hx : x.den ≠ 0) (hy : y.den ≠ 0) :
    x.bgt y = true ↔ y.toRat < x.toRat := by
  have hbx : (x.den : ℚ) ≠ 0 := Int.cast_ne_zero.mpr hx
  have hby : (y.den : ℚ) ≠ 0 := Int.cast_ne_zero.mpr hy
  unfold Dbl.bgt Dbl.blt Dbl.toRat
  rw [decide_eq_true_eq, gt_iff_lt]
  nth_rewrite 2 [← sub_pos]
  rw [div_sub_div _ _ hbx hby, div_pos_iff]
  constructor
  · intro h
    have h' : (0 : ℚ) < ((x.num : ℚ) * y.den - y.num * x.den) * ((y.den : ℚ) * x.den) := by
      exact_mod_cast h
    rcases mul_pos_iff.mp h' with ⟨ha, hb⟩ | ⟨ha, hb⟩
    · exact Or.inl ⟨by nlinarith, by nlinarith⟩
    · exact Or.inr ⟨by nlinarith, by nlinarith⟩
  · intro h
    have h' : (0 : ℚ) < ((x.num : ℚ) * y.den - y.num * x.den) * ((y.den : ℚ) * x.den) := by
      rcases h with ⟨ha, hb⟩ | ⟨ha, hb⟩
      · exact mul_pos (by nlinarith) (by nlinarith)
      · exact mul_pos_of_neg_of_neg (by nlinarith) (by nlinarith)
    exact_mod_cast h'

theorem Dbl.bgt_trans {x y z : Dbl} (h1 : x.bgt y = true) (h2 : y.bgt z = true) :
    x.bgt z = true := by
  obtain ⟨hx, hy⟩ := Dbl.bgt_den_ne h1
  obtain ⟨_, hz⟩ := Dbl.bgt_den_ne h2
  rw [Dbl.bgt_iff_lt hx hy] at h1
  rw [Dbl.bgt_iff_lt hy hz] at h2
  rw [Dbl.bgt_iff_lt hx hz]
  exact lt_trans h2 h1

theorem list_set_getD_self {α : Type _} (l : List α) (i : Nat) (d : α) :
    l.set i (l.getD i d) = l := by
  induction l generalizing i with
  | nil => rfl
  | cons a l ih =>
      cases i with
      | zero => rfl
      | succ i =>
          simp only [List.set, List.cons.injEq, true_and]
          simpa [List.getD] using ih i

theorem list_set_of_len_le {α : Type _} (l : List α) (i : Nat) (v : α)
    (h : l.length ≤ i) : l.set i v = l := by
  induction l generalizing i with
  | nil => rfl
  | cons a l ih =>
      cases i with
      | zero => simp at h
      | succ i =>
          simp only [List.length_cons, Nat.succ_le_succ_iff] at h
          simp [List.set, ih i h]

theorem list_getD_set_self {α : Type _} (l : List α) (i : Nat) (v d : α)
    (h : i < l.length) : (l.set i v).getD i d = v := by
  induction l generalizing i with
  | nil => simp at h
  | cons a l ih =>
      cases i with
      | zero => rfl
      | succ i =>
          simp only [List.length_cons, Nat.succ_lt_succ_iff] at h
          simpa [List.set, List.getD] using ih i h

theorem list_getD_set_ne {α : Type _} (l : List α) (i j : Nat) (v d : α)
    (h : i ≠ j) : (l.set i v).getD j d = l.getD j d := by
  induction l generalizing i j with
  | nil => rfl
  | cons a l ih =>
      cases i with
      | zero =>
          cases j with
          | zero => exact absurd rfl h
          | succ j => rfl
      | succ i =>
          cases j with
          | zero => rfl
          | succ j =>
              simpa [List.set, List.getD] using ih i j (fun he => h (by rw [he]))

theorem rgScan_true_iff (pat : List Int) (loads : List Dbl) (p0 : Int)
    (js : List Nat) (s : Dbl) :
    (rgScan pat loads p0 js s).2 = true ↔ ∀ j ∈ js, pat.getD j 0 = p0 := by
  induction js generalizing s with
  | nil => simp [rgScan]
  | cons j js ih =>
      simp only [rgScan, List.mem_cons]
      split
      · rename_i hne
        simp only [show ((s.add (loads.getD j ⟨0, 1⟩), false) : Dbl × Bool).2 = false from rfl]
        constructor
        · intro h
          exact absurd h (by simp)
        · intro h
          exact absurd (h j (Or.inl rfl)) hne
      · rename_i heq
        rw [not_not] at heq
        rw [ih]
        constructor
        · intro h k hk
          rcases hk with hk | hk
          · rw [hk]; exact heq
          · exact h k hk
        · intro h k hk
          exact h k (Or.inr hk)

theorem rgScan_fst_of_const (pat : List Int) (loads : List Dbl) (p0 : Int)
    (js : List Nat) (s : Dbl) (h : ∀ j ∈ js, pat.getD j 0 = p0) :
    (rgScan pat loads p0 js s).1 =
      js.foldl (fun a j => a.add (loads.getD j ⟨0, 1⟩)) s := by
  induction js generalizing s with
  | nil => rfl
  | cons j js ih =>
      simp only [rgScan, List.foldl_cons]
      rw [if_neg (by simpa using h j (List.mem_cons_self j js)),
        ih _ fun k hk => h k (List.mem_cons_of_mem j hk)]

theorem improveScan_true_iff (pat : List Int) (loads : List Dbl)
    (js : List Nat) (s : Dbl) :
    (improveScan pat loads js s).2 = true ↔ ∀ j ∈ js, pat.getD j 0 ≠ 1 := by
  induction js generalizing s with
  | nil => simp [improveScan]
  | cons j js ih =>
      simp only [improveScan, List.mem_cons]
      split
      · rename_i heq
        simp only [show ((s.add (loads.getD j ⟨0, 1⟩), false) : Dbl × Bool).2 = false from rfl]
        constructor
        · intro h
          exact absurd h (by simp)
        · intro h
          exact absurd heq (h j (Or.inl rfl))
      · rename_i hne
        rw [ih]
        constructor
        · intro h k hk
          rcases hk with hk | hk
          · rw [hk]; exact hne
          · exact h k hk
        · intro h k hk
          exact h k (Or.inr hk)

theorem improveScan_fst_of_ok (pat : List Int) (loads : List Dbl)
    (js : List Nat) (s : Dbl) (h : ∀ j ∈ js, pat.getD j 0 ≠ 1) :
    (improveScan pat loads js s).1 =
      js.foldl (fun a j => a.add (loads.getD j ⟨0, 1⟩)) s := by
  induction js generalizing s with
  | nil => rfl
  | cons j js ih =>
      simp only [improveScan, List.foldl_cons]
      rw [if_neg (h j (List.mem_cons_self j js)),
        ih _ fun k hk => h k (List.mem_cons_of_mem j hk)]

theorem canRGWeekDay_iff (slv : Solver) (mach : Machine) :
    canRGWeekDay slv mach = true ↔ specCanRGWeekDay slv mach := by
  unfold canRGWeekDay specCanRGWeekDay
  simp only [Bool.and_eq_true, Bool.not_eq_true', Bool.and_eq_false_iff,
    decide_eq_true_eq, decide_eq_false_iff_not, not_not, loadSumRange]
  constructor
  · rintro ⟨⟨h1, h2⟩, h3⟩
    have hc := (rgScan_true_iff _ _ _ _ _).mp h2
    refine ⟨h1, hc, fun hN => ?_⟩
    rcases h3 with h3 | h3
    · exact absurd h3 hN
    · rw [← rgScan_fst_of_const mach.weekDayPatterns mach.loads
        (mach.weekDayPatterns.getD 0 0) _ ⟨0, 1⟩ hc]
      exact h3
  · rintro ⟨h1, h2, h3⟩
    refine ⟨⟨h1, (rgScan_true_iff _ _ _ _ _).mpr h2⟩, ?_⟩
    by_cases hN : slv.noInteractions ≠ 300
    · right
      rw [rgScan_fst_of_const mach.weekDayPatterns mach.loads
        (mach.weekDayPatterns.getD 0 0) _ ⟨0, 1⟩ h2]
      exact h3 hN
    · left; exact not_not.mp hN

theorem canRGWeekEnd_iff (slv : Solver) (mach : Machine) :
    canRGWeekEnd slv mach = true ↔ specCanRGWeekEnd slv mach := by
  unfold canRGWeekEnd specCanRGWeekEnd
  simp only [Bool.and_eq_true, Bool.not_eq_true', Bool.and_eq_false_iff,
    decide_eq_true_eq, decide_eq_false_iff_not, not_not, loadSumRange]
  constructor
  · rintro ⟨⟨h1, h2⟩, h3⟩
    have hc := (rgScan_true_iff _ _ _ _ _).mp h2
    refine ⟨h1, hc, fun hN => ?_⟩
    rcases h3 with h3 | h3
    · exact absurd h3 hN
    · rw [← rgScan_fst_of_const mach.weekEndPatterns mach.loads
        (mach.weekEndPatterns.getD 0 0) _ ⟨0, 1⟩ hc]
      exact h3
  · rintro ⟨h1, h2, h3⟩
    refine ⟨⟨h1, (rgScan_true_iff _ _ _ _ _).mpr h2⟩, ?_⟩
    by_cases hN : slv.noInteractions ≠ 300
    · right
      rw [rgScan_fst_of_const mach.weekEndPatterns mach.loads
        (mach.weekEndPatterns.getD 0 0) _ ⟨0, 1⟩ h2]
      exact h3 hN
    · left; exact not_not.mp hN


theorem setSlot_of_len_le (s : State) (m w : Nat) (t : OptimizationPartType) (v : Int)
    (h : s.machines.length ≤ m) : setSlot s m w t v = s := by
  cases t <;>
    exact congrArg (fun M => State.mk M s.score s.noViolations s.noDelays)
      (list_set_of_len_le _ _ _ h)

theorem setSlot_restore (s : State) (m w : Nat) (t : OptimizationPartType) (v : Int) :
    setSlot (setSlot s m w t v) m w t (getSlot s m w t) = s := by
  by_cases hm : m < s.machines.length
  · cases t <;>
      · simp only [setSlot, getSlot, list_getD_set_self _ _ _ _ hm, List.set_set,
          list_set_getD_self]
        exact congrArg (fun M => State.mk M s.score s.noViolations s.noDelays)
          (list_set_getD_self s.machines m default)
  · have hle := Nat.le_of_not_lt hm
    rw [setSlot_of_len_le s m w t v hle, setSlot_of_len_le s m w t _ hle]

theorem setSlot_comm (s : State) (m w : Nat) (t : OptimizationPartType) (v : Int)
    (m' w' : Nat) (t' : OptimizationPartType) (v' : Int)
    (hne : ¬(m = m' ∧ w = w' ∧ t = t')) :
    setSlot (setSlot s m w t v) m' w' t' v' = setSlot (setSlot s m' w' t' v') m w t v := by
  by_cases hm : m = m'
  · subst hm
    by_cases hmlen : m < s.machines.length
    · cases t <;> cases t' <;>
        simp only [setSlot, list_getD_set_self _ _ _ _ hmlen, List.set_set]
      all_goals
        first
        | rfl
        | (have hw : w ≠ w' := fun he => hne ⟨rfl, he, rfl⟩
           rw [List.set_comm _ _ _ hw])
    · have hle := Nat.le_of_not_lt hmlen
      rw [setSlot_of_len_le s m w t v hle, setSlot_of_len_le s m w' t' v' hle,
        setSlot_of_len_le s m w t v hle]
  · cases t <;> cases t' <;>
      simp only [setSlot, list_getD_set_ne _ _ _ _ _ hm,
        list_getD_set_ne _ _ _ _ _ (fun he => hm he.symm)] <;>
      rw [List.set_comm _ _ _ hm]

theorem getSlot_setSlot_ne (s : State) (m w : Nat) (t : OptimizationPartType) (v : Int)
    (m' w' : Nat) (t' : OptimizationPartType)
    (hne : ¬(m = m' ∧ w = w' ∧ t = t')) :
    getSlot (setSlot s m w t v) m' w' t' = getSlot s m' w' t' := by
  by_cases hm : m = m'
  · subst hm
    by_cases hmlen : m < s.machines.length
    · cases t <;> cases t' <;>
        simp only [setSlot, getSlot, list_getD_set_self _ _ _ _ hmlen]
      all_goals
        first
        | rfl
        | exact list_getD_set_ne _ _ _ _ _ (fun he => hne ⟨rfl, he, rfl⟩)
    · rw [setSlot_of_len_le s m w t v (Nat.le_of_not_lt hmlen)]
  · cases t <;> cases t' <;> simp only [setSlot, getSlot] <;>
      rw [list_getD_set_ne _ _ _ _ _ hm]

theorem partPos_ne_and (p q : OptimizationPart) (h : partPos p ≠ partPos q) :
    ¬(p.machine = q.machine ∧ p.week = q.week ∧ p.type = q.type) := by
  intro hc
  exact h (by unfold partPos; rw [hc.1, hc.2.1, hc.2.2])

theorem part_undo_apply_cancel (p : OptimizationPart) (s : State)
    (h : slotAgrees s p) : p.undo (p.apply s) = s := by
  unfold slotAgrees at h
  unfold OptimizationPart.apply OptimizationPart.undo
  rw [← h]
  exact setSlot_restore s p.machine p.week p.type p.toPat

theorem partFold_undo_comm (ps : List OptimizationPart) (p : OptimizationPart) :
    ∀ (s : State), (∀ q ∈ ps, partPos q ≠ partPos p) →
    ps.foldl (fun t q => q.apply t) (p.undo s) = p.undo (ps.foldl (fun t q => q.apply t) s) := by
  induction ps with
  | nil => intro s _; rfl
  | cons q ps ih =>
      intro s hne
      simp only [List.foldl_cons]
      have hq : q.apply (p.undo s) = p.undo (q.apply s) := by
        unfold OptimizationPart.apply OptimizationPart.undo
        exact (setSlot_comm s q.machine q.week q.type q.toPat p.machine p.week p.type p.fromPat
          (partPos_ne_and q p (hne q (List.mem_cons_self q ps)))).symm
      rw [hq, ih _ fun q' h' => hne q' (List.mem_cons_of_mem q h')]

theorem slotAgrees_of_apply_ne (p q : OptimizationPart) (s : State)
    (hne : partPos q ≠ partPos p) (h : slotAgrees s p) : slotAgrees (q.apply s) p := by
  unfold slotAgrees OptimizationPart.apply at *
  rw [getSlot_setSlot_ne s q.machine q.week q.type q.toPat p.machine p.week p.type
    (partPos_ne_and q p hne)]
  exact h

theorem partList_roundtrip (ps : List OptimizationPart) :
    ∀ (s : State), ps.Pairwise (fun p q => partPos p ≠ partPos q) →
    (∀ p ∈ ps, slotAgrees s p) →
    ps.foldl (fun t q => q.undo t) (ps.foldl (fun t q => q.apply t) s) = s := by
  induction ps with
  | nil => intro s _ _; rfl
  | cons p ps ih =>
      intro s hpw hag
      have hpwtail := (List.pairwise_cons.mp hpw).2
      have hphead := (List.pairwise_cons.mp hpw).1
      simp only [List.foldl_cons]
      rw [← partFold_undo_comm ps p (p.apply s) fun q hq => fun he => hphead q hq he.symm,
        part_undo_apply_cancel p s (hag p (List.mem_cons_self p ps))]
      exact ih s hpwtail fun q hq => hag q (List.mem_cons_of_mem p hq)


theorem selectFold_inv (bad : List String) (opts0 : List Optimization) :
    ∀ (l : List Optimization) (acc : Option Optimization × Dbl),
      (∀ o ∈ l, o ∈ opts0) →
      ((acc.1 = none ∧ acc.2 = Dbl.ofInt (-1)) ∨
        (∃ o', acc.1 = some o' ∧ acc.2 = o'.costImprovement ∧ o' ∈ opts0 ∧
          bad.contains o'.id = false ∧ o'.costImprovement.bgt (Dbl.ofInt (-1)) = true)) →
      ∀ r, r = l.foldl
          (fun acc o =>
            if o.costImprovement.bgt acc.2 && !(bad.contains o.id) then (some o, o.costImprovement)
            else acc) acc →
      ((r.1 = none ∧ r.2 = Dbl.ofInt (-1)) ∨
        (∃ o', r.1 = some o' ∧ r.2 = o'.costImprovement ∧ o' ∈ opts0 ∧
          bad.contains o'.id = false ∧ o'.costImprovement.bgt (Dbl.ofInt (-1)) = true)) := by
  intro l
  induction l with
  | nil =>
      intro acc _ hacc r hr
      rw [hr]
      exact hacc
  | cons o l ih =>
      intro acc hsub hacc r hr
      simp only [List.foldl_cons] at hr
      refine ih _ (fun o' ho' => hsub o' (List.mem_cons_of_mem o ho')) ?_ r hr
      by_cases hc : (o.costImprovement.bgt acc.2 && !(bad.contains o.id)) = true
      · rw [if_pos hc]
        simp only [Bool.and_eq_true, Bool.not_eq_true'] at hc
        right
        refine ⟨o, rfl, rfl, hsub o (List.mem_cons_self o l), hc.2, ?_⟩
        rcases hacc with ⟨_, h2⟩ | ⟨o', _, h2, _, _, h5⟩
        · rw [h2] at hc; exact hc.1
        · rw [h2] at hc; exact Dbl.bgt_trans hc.1 h5
      · rw [if_neg hc]; exact hacc

theorem selectBest_some (bad : List String) (opts : List Optimization)
    (o : Optimization) (h : selectBest bad opts = some o) :
    o ∈ opts ∧ bad.contains o.id = false ∧ o.costImprovement.bgt (Dbl.ofInt (-1)) = true := by
  have hinv := selectFold_inv bad opts opts ((none : Option Optimization), Dbl.ofInt (-1))
    (fun o' h' => h') (Or.inl ⟨rfl, rfl⟩) _ rfl
  unfold selectBest at h
  rcases hinv with ⟨h1, _⟩ | ⟨o', h1, _, h3, h4, h5⟩
  · rw [h] at h1; cases h1
  · rw [h] at h1
    cases h1
    exact ⟨h3, h4, h5⟩

theorem selectBest_none (bad : List String) (opts : List Optimization)
    (h : ∀ o ∈ opts, bad.contains o.id = false → o.costImprovement.bgt (Dbl.ofInt (-1)) = false) :
    selectBest bad opts = none := by
  unfold selectBest
  have hfold : ∀ (l : List Optimization), (∀ o ∈ l, o ∈ opts) →
      l.foldl
        (fun acc o =>
          if o.costImprovement.bgt acc.2 && !(bad.contains o.id) then (some o, o.costImprovement)
          else acc) ((none : Option Optimization), Dbl.ofInt (-1)) =
      ((none : Option Optimization), Dbl.ofInt (-1)) := by
    intro l
    induction l with
    | nil => intro _; rfl
    | cons o l ih =>
        intro hsub
        simp only [List.foldl_cons]
        have hno : (o.costImprovement.bgt (Dbl.ofInt (-1)) && !(bad.contains o.id)) = false := by
          cases hb : bad.contains o.id with
          | true => simp [hb]
          | false => simp [hb, h o (hsub o (List.mem_cons_self o l)) hb]
        rw [if_neg (fun hcond => by
            simp only [Bool.and_eq_true, Bool.not_eq_true'] at hcond
            rw [hcond.1, hcond.2] at hno
            simp at hno),
          ih fun o' h' => hsub o' (List.mem_cons_of_mem o h')]
  rw [hfold opts fun o' h' => h']

theorem applyStep_prev (slv : Solver) :
    (slv.applyStep).previousOptimization =
      selectBest slv.badOptimizations (slv.generateOptimizations slv.lastState) := by
  unfold Solver.applyStep
  cases h : selectBest slv.badOptimizations (slv.generateOptimizations slv.lastState) <;>
    simp [h]


theorem strApp_ne_of_len (s1 t1 s2 t2 : String) (h : s1.length + t1.length < s2.length + t2.length) :
    s1 ++ t1 ≠ s2 ++ t2 := by
  intro he
  have hl : (s1 ++ t1).length = (s2 ++ t2).length := by rw [he]
  rw [String.length_append, String.length_append] at hl
  omega

theorem strApp_ne_of_data (s1 s2 t1 t2 : String) (k : Nat)
    (h1 : k < s1.data.length) (h2 : k < s2.data.length)
    (hne : s1.data[k]? ≠ s2.data[k]?) : s1 ++ t1 ≠ s2 ++ t2 := by
  intro he
  have hd : s1.data ++ t1.data = s2.data ++ t2.data := by
    rw [← String.data_append, ← String.data_append, he]
  apply hne
  rw [← @List.getElem?_append_left _ s1.data t1.data k h1,
    ← @List.getElem?_append_left _ s2.data t2.data k h2, hd]

theorem name_of_mem_improveSplitOpts (pat : List Int) (loads : List Dbl)
    (mk : Nat → Int → OptimizationPart) (nm : String) (runs : List (Nat × Nat))
    (o : Optimization) (h : o ∈ improveSplitOpts pat loads mk nm runs) : o.name = nm := by
  unfold improveSplitOpts at h
  rw [List.mem_flatMap] at h
  obtain ⟨r, _, hr⟩ := h
  simp only [improveSplitRun] at hr
  split at hr
  · rcases List.mem_singleton.mp hr with rfl
    rfl
  · cases hr

theorem name_of_mem_createSplitOpts (slv : Solver) (pat : List Int) (loads : List Dbl)
    (mk : Nat → Int → OptimizationPart) (nm : String) (lastOp divBase otherChanges : Int)
    (o : Optimization) (h : o ∈ createSplitOpts slv pat loads mk nm lastOp divBase otherChanges) :
    o.name = nm := by
  simp only [createSplitOpts] at h
  split at h
  · rcases List.mem_singleton.mp h with rfl
    rfl
  · cases h

theorem mem_bool_ite_singleton {c : Bool} {x o : Optimization} :
    (o ∈ if c then [x] else []) ↔ (c = true ∧ o = x) := by
  cases c <;> simp


theorem lastOperating_nonneg (pat : List Int) (n : Nat)
    (h : lastOperating pat n ≠ -1) : 0 ≤ lastOperating pat n := by
  induction n with
  | zero => exact absurd rfl h
  | succ n ih =>
      unfold lastOperating at h ⊢
      split
      · exact Int.ofNat_nonneg n
      · rename_i hcond
        rw [if_neg hcond] at h
        exact ih h

theorem canRGWeekDay_lastOp (slv : Solver) (mach : Machine)
    (h : canRGWeekDay slv mach = true) :
    lastOperating mach.weekDayPatterns slv.noWeeks ≠ -1 := by
  unfold canRGWeekDay at h
  simp only [Bool.and_eq_true, decide_eq_true_eq] at h
  exact h.1.1

theorem canRGWeekEnd_lastOp (slv : Solver) (mach : Machine)
    (h : canRGWeekEnd slv mach = true) :
    lastOperating mach.weekEndPatterns slv.noWeeks ≠ -1 := by
  unfold canRGWeekEnd at h
  simp only [Bool.and_eq_true, decide_eq_true_eq] at h
  exact h.1.1

theorem make_inj {n n' : String} {p p' : List OptimizationPart}
    (h : Optimization.make n p = Optimization.make n' p') : n = n' ∧ p = p' := by
  unfold Optimization.make at h
  rw [Optimization.mk.injEq] at h
  exact ⟨h.2.1, h.2.2.2⟩

theorem rgWeekDayParts_fields (s : State) (i : Nat) (lwd : Int) :
    ∀ p ∈ rgWeekDayParts s i lwd, p.type = .weekDay ∧ p.machine = i := by
  intro p hp
  unfold rgWeekDayParts at hp
  rw [List.mem_map] at hp
  obtain ⟨j, _, rfl⟩ := hp
  exact ⟨rfl, rfl⟩

theorem rgWeekEndParts_fields (s : State) (i : Nat) (lwe : Int) :
    ∀ p ∈ rgWeekEndParts s i lwe, p.type = .weekEnd ∧ p.machine = i := by
  intro p hp
  unfold rgWeekEndParts at hp
  rw [List.mem_map] at hp
  obtain ⟨j, _, rfl⟩ := hp
  exact ⟨rfl, rfl⟩

theorem rgWeekDayParts_head (s : State) (i : Nat) (lwd : Int) (h : 0 ≤ lwd) :
    (rgWeekDayParts s i lwd).head? =
      some (OptimizationPart.mkWeekDay s i 0
        ((s.machines.getD i default).weekDayPatterns.getD 0 0 - 1)) := by
  unfold rgWeekDayParts
  obtain ⟨k, hk⟩ : ∃ k, (lwd + 1).toNat = k + 1 := ⟨lwd.toNat, by omega⟩
  rw [hk, List.range_succ_eq_map]
  rfl

theorem rgWeekEndParts_head (s : State) (i : Nat) (lwe : Int) (h : 0 ≤ lwe) :
    (rgWeekEndParts s i lwe).head? =
      some (OptimizationPart.mkWeekEnd s i 0
        ((s.machines.getD i default).weekEndPatterns.getD 0 0 - 1)) := by
  unfold rgWeekEndParts
  obtain ⟨k, hk⟩ : ∃ k, (lwe + 1).toNat = k + 1 := ⟨lwe.toNat, by omega⟩
  rw [hk, List.range_succ_eq_map]
  rfl

theorem rgCombinedParts_second (s : State) (i : Nat) (lwd lwe : Int)
    (h1 : 0 ≤ lwd) (h2 : 0 ≤ lwe) :
    (rgCombinedParts s i lwd lwe)[1]? =
      some (OptimizationPart.mkWeekEnd s i 0
        ((s.machines.getD i default).weekEndPatterns.getD 0 0 - 1)) := by
  unfold rgCombinedParts
  obtain ⟨k, hk⟩ : ∃ k, (min lwd lwe + 1).toNat = k + 1 := by
    refine ⟨(min lwd lwe).toNat, ?_⟩
    have : 0 ≤ min lwd lwe := le_min h1 h2
    omega
  rw [hk, List.range_succ_eq_map]
  simp only [List.flatMap_cons, List.cons_append, List.getElem?_cons_succ,
    List.getElem?_cons_zero]

theorem rgCombinedParts_first (s : State) (i : Nat) (lwd lwe : Int)
    (h1 : 0 ≤ lwd) (h2 : 0 ≤ lwe) :
    (rgCombinedParts s i lwd lwe).head? =
      some (OptimizationPart.mkWeekDay s i 0
        ((s.machines.getD i default).weekDayPatterns.getD 0 0 - 1)) := by
  unfold rgCombinedParts
  obtain ⟨k, hk⟩ : ∃ k, (min lwd lwe + 1).toNat = k + 1 := by
    refine ⟨(min lwd lwe).toNat, ?_⟩
    have : 0 ≤ min lwd lwe := le_min h1 h2
    omega
  rw [hk, List.range_succ_eq_map]
  simp only [List.flatMap_cons, List.cons_append, List.head?_cons]

theorem mem_machineBlock_cases (slv : Solver) (s : State) (i' : Nat) (o : Optimization)
    (h : o ∈ machineBlock slv s i') :
    (canRGWeekDay slv (s.machines.getD i' default) = true ∧
     canRGWeekEnd slv (s.machines.getD i' default) = true ∧
     o = Optimization.make ("ReduceGlobal" ++ toString i')
          (rgCombinedParts s i'
            (lastOperating (s.machines.getD i' default).weekDayPatterns slv.noWeeks)
            (lastOperating (s.machines.getD i' default).weekEndPatterns slv.noWeeks))) ∨
    (canRGWeekDay slv (s.machines.getD i' default) = true ∧
     o = Optimization.make ("ReduceGlobalWeekDay" ++ toString i')
          (rgWeekDayParts s i'
            (lastOperating (s.machines.getD i' default).weekDayPatterns slv.noWeeks))) ∨
    (canRGWeekEnd slv (s.machines.getD i' default) = true ∧
     o = Optimization.make ("ReduceGlobalWeekEnd" ++ toString i')
          (rgWeekEndParts s i'
            (lastOperating (s.machines.getD i' default).weekEndPatterns slv.noWeeks))) ∨
    o.name = "ImproveSplitWeekDay" ++ toString i' ∨
    o.name = "CreateSplitWeekDay" ++ toString i' ∨
    o.name = "ImproveSplitWeekEnd" ++ toString i' ∨
    o.name = "CreateSplitWeekEnd" ++ toString i' := by
  simp only [machineBlock, List.mem_append] at h
  rcases h with ((((h | h) | h) | h) | h)
  · rw [mem_bool_ite_singleton] at h
    rw [Bool.and_eq_true] at h
    exact Or.inl ⟨h.1.1, h.1.2, h.2⟩
  · rw [mem_bool_ite_singleton] at h
    exact Or.inr (Or.inl ⟨h.1, h.2⟩)
  · rw [mem_bool_ite_singleton] at h
    exact Or.inr (Or.inr (Or.inl ⟨h.1, h.2⟩))
  · rcases hd : decide (lastOperating (s.machines.getD i' default).weekDayPatterns slv.noWeeks ≠ -1) with _ | _
    · rw [hd] at h; cases h
    · rw [hd] at h
      simp only [if_true] at h
      rcases List.mem_append.mp h with h | h
      · exact Or.inr (Or.inr (Or.inr (Or.inl
          (name_of_mem_improveSplitOpts _ _ _ _ _ _ h))))
      · exact Or.inr (Or.inr (Or.inr (Or.inr (Or.inl
          (name_of_mem_createSplitOpts _ _ _ _ _ _ _ _ _ h)))))
  · rcases hd : decide (lastOperating (s.machines.getD i' default).weekEndPatterns slv.noWeeks ≠ -1) with _ | _
    · rw [hd] at h; cases h
    · rw [hd] at h
      simp only [if_true] at h
      rcases List.mem_append.mp h with h | h
      · exact Or.inr (Or.inr (Or.inr (Or.inr (Or.inr (Or.inl
          (name_of_mem_improveSplitOpts _ _ _ _ _ _ h))))))
      · exact Or.inr (Or.inr (Or.inr (Or.inr (Or.inr (Or.inr
          (name_of_mem_createSplitOpts _ _ _ _ _ _ _ _ _ h))))))


theorem mem_of_head? {α : Type _} {l : List α} {a : α} (h : l.head? = some a) : a ∈ l := by
  cases l with
  | nil => cases h
  | cons b t =>
      rw [List.head?_cons] at h
      injection h with h
      rw [← h]
      exact List.mem_cons_self b t

theorem make_name (n : String) (p : List OptimizationPart) :
    (Optimization.make n p).name = n := rfl

theorem mem_ite_singleton_prop {c : Prop} [Decidable c] {x o : Optimization} :
    (o ∈ if c then [x] else []) ↔ (c ∧ o = x) := by
  split
  · rename_i hc
    simp [hc]
  · rename_i hc
    simp [hc]

theorem mem_generateOptimizations_cases (slv : Solver) (s : State) (o : Optimization)
    (h : o ∈ slv.generateOptimizations s) :
    (∃ i' ∈ List.range slv.noMachines, o ∈ machineBlock slv s i') ∨
    ((decide (slv.noInteractions ≠ 300) && !slv.reduceGlobalFailed) = true ∧
      o = Optimization.make "ReduceGlobal" (fleetParts slv s)) ∨
    (slv.states.length = slv.noInteractions ∧
      o = Optimization.make "Shutdown" (shutdownParts slv s)) := by
  unfold Solver.generateOptimizations at h
  rcases List.mem_append.mp h with h | h
  · rcases List.mem_append.mp h with h | h
    · exact Or.inl (List.mem_flatMap.mp h)
    · exact Or.inr (Or.inl (mem_bool_ite_singleton.mp h))
  · exact Or.inr (Or.inr (mem_ite_singleton_prop.mp h))

/-- C6 (amended): for every machine `i`, the `ReduceGlobalWeekDay<i>`
candidate is generated exactly when the weekday side is operating, constant
over its operating weeks, and — unless `N = 300` — its mean load over those
weeks is at most `0.75` (not `0.6` as specified). -/
theorem c6_reduce_global_weekday_guard (slv : Solver) (s : State) (i : Nat)
    (hi : i < slv.noMachines) :
    (Optimization.make ("ReduceGlobalWeekDay" ++ toString i)
        (rgWeekDayParts s i
          (lastOperating (s.machines.getD i default).weekDayPatterns slv.noWeeks))
      ∈ slv.generateOptimizations s)
    ↔ specCanRGWeekDay slv (s.machines.getD i default) := by
  rw [← canRGWeekDay_iff]
  constructor
  · intro h
    rcases mem_generateOptimizations_cases slv s _ h with ⟨i', _, hm⟩ | ⟨_, he⟩ | ⟨_, he⟩
    · rcases mem_machineBlock_cases slv s i' _ hm with
        ⟨hwd', hwe', he⟩ | ⟨hwd', he⟩ | ⟨hwe', he⟩ | hn | hn | hn | hn
      · exfalso
        obtain ⟨_, hparts⟩ := make_inj he
        have h1 := lastOperating_nonneg _ _ (canRGWeekDay_lastOp _ _ hwd')
        have h2 := lastOperating_nonneg _ _ (canRGWeekEnd_lastOp _ _ hwe')
        have hsecond := rgCombinedParts_second s i' _ _ h1 h2
        rw [← hparts] at hsecond
        have htype := (rgWeekDayParts_fields s i _ _ (List.getElem?_mem hsecond)).1
        simp [OptimizationPart.mkWeekEnd] at htype
      · obtain ⟨_, hparts⟩ := make_inj he
        have h0 := lastOperating_nonneg _ _ (canRGWeekDay_lastOp _ _ hwd')
        have hhead := rgWeekDayParts_head s i' _ h0
        rw [← hparts] at hhead
        have hmach := (rgWeekDayParts_fields s i _ _ (mem_of_head? hhead)).2
        have hii : i' = i := by simpa [OptimizationPart.mkWeekDay] using hmach
        rw [hii] at hwd'
        exact hwd'
      · exfalso
        obtain ⟨_, hparts⟩ := make_inj he
        have h0 := lastOperating_nonneg _ _ (canRGWeekEnd_lastOp _ _ hwe')
        have hhead := rgWeekEndParts_head s i' _ h0
        rw [← hparts] at hhead
        have htype := (rgWeekDayParts_fields s i _ _ (mem_of_head? hhead)).1
        simp [OptimizationPart.mkWeekEnd] at htype
      · rw [make_name] at hn
        exact absurd hn (strApp_ne_of_data _ _ _ _ 0 (by decide) (by decide) (by decide))
      · rw [make_name] at hn
        exact absurd hn (strApp_ne_of_data _ _ _ _ 0 (by decide) (by decide) (by decide))
      · rw [make_name] at hn
        exact absurd hn (strApp_ne_of_data _ _ _ _ 0 (by decide) (by decide) (by decide))
      · rw [make_name] at hn
        exact absurd hn (strApp_ne_of_data _ _ _ _ 0 (by decide) (by decide) (by decide))
    · exfalso
      have hn := congrArg Optimization.name he
      rw [make_name, make_name] at hn
      have hne : ("ReduceGlobal" ++ "" : String) ≠ "ReduceGlobalWeekDay" ++ toString i :=
        strApp_ne_of_len _ _ _ _
          (Nat.lt_of_lt_of_le (by decide) (Nat.le_add_right 19 (toString i).length))
      rw [String.append_empty] at hne
      exact hne hn.symm
    · exfalso
      have hn := congrArg Optimization.name he
      rw [make_name, make_name] at hn
      have hne : ("ReduceGlobalWeekDay" ++ toString i : String) ≠ "Shutdown" ++ "" :=
        strApp_ne_of_data _ _ _ _ 0 (by decide) (by decide) (by decide)
      rw [String.append_empty] at hne
      exact hne hn
  · intro hwd
    unfold Solver.generateOptimizations
    refine List.mem_append.mpr (Or.inl (List.mem_append.mpr (Or.inl
      (List.mem_flatMap.mpr ⟨i, List.mem_range.mpr hi, ?_⟩))))
    simp only [machineBlock]
    refine List.mem_append.mpr (Or.inl (List.mem_append.mpr (Or.inl
      (List.mem_append.mpr (Or.inl (List.mem_append.mpr (Or.inr ?_)))))))
    rw [mem_bool_ite_singleton]
    exact ⟨hwd, rfl⟩


/-- C7 (amended): the `ReduceGlobalWeekEnd<i>` guard requires constancy on
the weekend operating weeks and — unless `N = 300` — that the sum of the
loads over weeks `1..lastWE` (week 0 is not included in the sum), divided
by `lastWE + 1`, be at most the same threshold `0.75` the weekday guard
uses. -/
theorem c7_reduce_global_weekend_guard (slv : Solver) (s : State) (i : Nat)
    (hi : i < slv.noMachines) :
    (Optimization.make ("ReduceGlobalWeekEnd" ++ toString i)
        (rgWeekEndParts s i
          (lastOperating (s.machines.getD i default).weekEndPatterns slv.noWeeks))
      ∈ slv.generateOptimizations s)
    ↔ specCanRGWeekEnd slv (s.machines.getD i default) := by
  rw [← canRGWeekEnd_iff]
  constructor
  · intro h
    rcases mem_generateOptimizations_cases slv s _ h with ⟨i', _, hm⟩ | ⟨_, he⟩ | ⟨_, he⟩
    · rcases mem_machineBlock_cases slv s i' _ hm with
        ⟨hwd', hwe', he⟩ | ⟨hwd', he⟩ | ⟨hwe', he⟩ | hn | hn | hn | hn
      · exfalso
        obtain ⟨_, hparts⟩ := make_inj he
        have h1 := lastOperating_nonneg _ _ (canRGWeekDay_lastOp _ _ hwd')
        have h2 := lastOperating_nonneg _ _ (canRGWeekEnd_lastOp _ _ hwe')
        have hfirst := rgCombinedParts_first s i' _ _ h1 h2
        rw [← hparts] at hfirst
        have htype := (rgWeekEndParts_fields s i _ _ (mem_of_head? hfirst)).1
        simp [OptimizationPart.mkWeekDay] at htype
      · exfalso
        obtain ⟨_, hparts⟩ := make_inj he
        have h0 := lastOperating_nonneg _ _ (canRGWeekDay_lastOp _ _ hwd')
        have hhead := rgWeekDayParts_head s i' _ h0
        rw [← hparts] at hhead
        have htype := (rgWeekEndParts_fields s i _ _ (mem_of_head? hhead)).1
        simp [OptimizationPart.mkWeekDay] at htype
      · obtain ⟨_, hparts⟩ := make_inj he
        have h0 := lastOperating_nonneg _ _ (canRGWeekEnd_lastOp _ _ hwe')
        have hhead := rgWeekEndParts_head s i' _ h0
        rw [← hparts] at hhead
        have hmach := (rgWeekEndParts_fields s i _ _ (mem_of_head? hhead)).2
        have hii : i' = i := by simpa [OptimizationPart.mkWeekEnd] using hmach
        rw [hii] at hwe'
        exact hwe'
      · rw [make_name] at hn
        exact absurd hn (strApp_ne_of_data _ _ _ _ 0 (by decide) (by decide) (by decide))
      · rw [make_name] at hn
        exact absurd hn (strApp_ne_of_data _ _ _ _ 0 (by decide) (by decide) (by decide))
      · rw [make_name] at hn
        exact absurd hn (strApp_ne_of_data _ _ _ _ 0 (by decide) (by decide) (by decide))
      · rw [make_name] at hn
        exact absurd hn (strApp_ne_of_data _ _ _ _ 0 (by decide) (by decide) (by decide))
    · exfalso
      have hn := congrArg Optimization.name he
      rw [make_name, make_name] at hn
      have hne : ("ReduceGlobal" ++ "" : String) ≠ "ReduceGlobalWeekEnd" ++ toString i :=
        strApp_ne_of_len _ _ _ _
          (Nat.lt_of_lt_of_le (by decide) (Nat.le_add_right 19 (toString i).length))
      rw [String.append_empty] at hne
      exact hne hn.symm
    · exfalso
      have hn := congrArg Optimization.name he
      rw [make_name, make_name] at hn
      have hne : ("ReduceGlobalWeekEnd" ++ toString i : String) ≠ "Shutdown" ++ "" :=
        strApp_ne_of_data _ _ _ _ 0 (by decide) (by decide) (by decide)
      rw [String.append_empty] at hne
      exact hne hn
  · intro hwe
    unfold Solver.generateOptimizations
    refine List.mem_append.mpr (Or.inl (List.mem_append.mpr (Or.inl
      (List.mem_flatMap.mpr ⟨i, List.mem_range.mpr hi, ?_⟩))))
    simp only [machineBlock]
    refine List.mem_append.mpr (Or.inl (List.mem_append.mpr (Or.inl
      (List.mem_append.mpr (Or.inr ?_)))))
    rw [mem_bool_ite_singleton]
    exact ⟨hwe, rfl⟩


theorem app_ne_shutdown (pre t : String) (hlen : 8 < pre.length) : pre ++ t ≠ "Shutdown" := by
  intro he
  have h1 : (pre ++ t).length = ("Shutdown" : String).length := by rw [he]
  rw [String.length_append] at h1
  have h2 : ("Shutdown" : String).length = 8 := by decide
  omega

theorem shutdown_mem_iff (slv : Solver) (s : State) :
    (∃ o ∈ slv.generateOptimizations s, o.name = "Shutdown") ↔
      slv.states.length = slv.noInteractions := by
  constructor
  · rintro ⟨o, hmem, hname⟩
    rcases mem_generateOptimizations_cases slv s o hmem with ⟨i', _, hm⟩ | ⟨_, he⟩ | ⟨hc, _⟩
    · exfalso
      rcases mem_machineBlock_cases slv s i' o hm with
        ⟨_, _, he⟩ | ⟨_, he⟩ | ⟨_, he⟩ | hn | hn | hn | hn
      · rw [he, make_name] at hname
        exact app_ne_shutdown _ _ (by decide) hname
      · rw [he, make_name] at hname
        exact app_ne_shutdown _ _ (by decide) hname
      · rw [he, make_name] at hname
        exact app_ne_shutdown _ _ (by decide) hname
      · rw [hn] at hname
        exact app_ne_shutdown _ _ (by decide) hname
      · rw [hn] at hname
        exact app_ne_shutdown _ _ (by decide) hname
      · rw [hn] at hname
        exact app_ne_shutdown _ _ (by decide) hname
      · rw [hn] at hname
        exact app_ne_shutdown _ _ (by decide) hname
    · rw [he, make_name] at hname
      exact absurd hname (by decide)
    · exact hc
  · intro hc
    refine ⟨Optimization.make "Shutdown" (shutdownParts slv s), ?_, rfl⟩
    unfold Solver.generateOptimizations
    refine List.mem_append.mpr (Or.inr ?_)
    rw [mem_ite_singleton_prop]
    exact ⟨hc, rfl⟩

theorem dropLast_concat_length {α : Type _} (l : List α) (x : α) (h : l ≠ []) :
    (l.dropLast ++ [x]).length = l.length := by
  rw [List.length_append, List.length_dropLast]
  have := List.length_pos.mpr h
  simp only [List.length_singleton]
  omega

theorem setLastState_facts (slv : Solver) (s : State) (h : slv.states ≠ []) :
    (slv.setLastState s).states.length = slv.states.length ∧
    (slv.setLastState s).states ≠ [] ∧
    (slv.setLastState s).noInteractions = slv.noInteractions := by
  refine ⟨dropLast_concat_length _ _ h, ?_, rfl⟩
  simp [Solver.setLastState]

theorem setFeedback_facts (slv : Solver) (fb : Feedback) (h : slv.states ≠ []) :
    (slv.setFeedback fb).states.length = slv.states.length ∧
    (slv.setFeedback fb).states ≠ [] ∧
    (slv.setFeedback fb).noInteractions = slv.noInteractions := by
  unfold Solver.setFeedback
  exact setLastState_facts _ _ h

theorem pushCopy_facts (slv : Solver) :
    (slv.pushCopy).states.length = slv.states.length + 1 ∧
    (slv.pushCopy).states ≠ [] ∧
    (slv.pushCopy).noInteractions = slv.noInteractions := by
  refine ⟨?_, ?_, rfl⟩
  · simp [Solver.pushCopy]
  · simp [Solver.pushCopy]

theorem revertStep_facts (slv : Solver) (h : slv.states ≠ []) :
    (slv.revertStep).states.length = slv.states.length ∧
    (slv.revertStep).states ≠ [] ∧
    (slv.revertStep).noInteractions = slv.noInteractions := by
  unfold Solver.revertStep
  cases hp : slv.previousOptimization with
  | none => exact ⟨rfl, h, rfl⟩
  | some o =>
      simp only []
      split
      · exact ⟨dropLast_concat_length _ _ h, by simp, rfl⟩
      · exact ⟨rfl, h, rfl⟩

theorem applyStep_facts (slv : Solver) (h : slv.states ≠ []) :
    (slv.applyStep).states.length = slv.states.length ∧
    (slv.applyStep).states ≠ [] ∧
    (slv.applyStep).noInteractions = slv.noInteractions := by
  unfold Solver.applyStep
  cases selectBest slv.badOptimizations (slv.generateOptimizations slv.lastState) with
  | none => exact ⟨rfl, h, rfl⟩
  | some o => exact ⟨dropLast_concat_length _ _ h, by simp, rfl⟩

theorem step_facts (slv : Solver) (fb : Feedback) (h : slv.states ≠ []) :
    (slv.step fb).states.length = slv.states.length + 1 ∧
    (slv.step fb).states ≠ [] ∧
    (slv.step fb).noInteractions = slv.noInteractions := by
  unfold Solver.step Solver.refine
  obtain ⟨hsf1, hsf2, hsf3⟩ := setFeedback_facts slv fb h
  obtain ⟨hpc1, hpc2, hpc3⟩ := pushCopy_facts (slv.setFeedback fb)
  obtain ⟨hrv1, hrv2, hrv3⟩ := revertStep_facts ((slv.setFeedback fb).pushCopy) hpc2
  obtain ⟨hap1, hap2, hap3⟩ :=
    applyStep_facts (((slv.setFeedback fb).pushCopy).revertStep) hrv2
  refine ⟨?_, hap2, ?_⟩
  · rw [hap1, hrv1, hpc1, hsf1]
  · rw [hap3, hrv3, hpc3, hsf3]

theorem runSteps_facts (slv : Solver) (fbs : List Feedback) (h : slv.states ≠ []) :
    (slv.runSteps fbs).states.length = slv.states.length + fbs.length ∧
    (slv.runSteps fbs).states ≠ [] ∧
    (slv.runSteps fbs).noInteractions = slv.noInteractions := by
  induction fbs generalizing slv with
  | nil => exact ⟨rfl, h, rfl⟩
  | cons fb fbs ih =>
      obtain ⟨h1, h2, h3⟩ := step_facts slv fb h
      obtain ⟨h4, h5, h6⟩ := ih (slv.step fb) h2
      unfold Solver.runSteps at h4 h5 h6 ⊢
      rw [List.foldl_cons]
      refine ⟨?_, h5, ?_⟩
      · rw [h4, h1, List.length_cons]
        omega
      · rw [h6, h3]

/-- C8 (confirmed): during the interaction loop, a Shutdown-named move is
among the generated candidates exactly when the grid being constructed is
the `N`-th (and final) outgoing grid: after `k` completed rounds the refine
call builds grid `k + 2`, and Shutdown appears iff `k + 2 = N`. -/
theorem c8_shutdown_only_final_round (noWeeks noMachines : Nat) (maxCh : Int) (N : Nat)
    (costs : List (List Dbl × List Dbl)) (fbs : List Feedback) (fb : Feedback) :
    (∃ o ∈ (((((mkSolver noWeeks noMachines maxCh N costs).runSteps fbs).setFeedback
          fb).pushCopy).revertStep).generateOptimizations
        ((((((mkSolver noWeeks noMachines maxCh N costs).runSteps fbs).setFeedback
          fb).pushCopy).revertStep).lastState),
      o.name = "Shutdown") ↔ fbs.length + 2 = N := by
  rw [shutdown_mem_iff]
  have hinit : (mkSolver noWeeks noMachines maxCh N costs).states ≠ [] := by
    unfold mkSolver Solver.setInitialPatterns
    simp
  have hinitlen : (mkSolver noWeeks noMachines maxCh N costs).states.length = 1 := by
    unfold mkSolver Solver.setInitialPatterns
    simp
  have hinitN : (mkSolver noWeeks noMachines maxCh N costs).noInteractions = N := by
    unfold mkSolver Solver.setInitialPatterns
    simp
  obtain ⟨h1, h2, h3⟩ := runSteps_facts (mkSolver noWeeks noMachines maxCh N costs) fbs hinit
  obtain ⟨h4, h5, h6⟩ :=
    setFeedback_facts ((mkSolver noWeeks noMachines maxCh N costs).runSteps fbs) fb h2
  obtain ⟨h7, h8, h9⟩ :=
    pushCopy_facts (((mkSolver noWeeks noMachines maxCh N costs).runSteps fbs).setFeedback fb)
  obtain ⟨h10, h11, h12⟩ :=
    revertStep_facts
      ((((mkSolver noWeeks noMachines maxCh N costs).runSteps fbs).setFeedback fb).pushCopy) h8
  rw [h10, h7, h4, h1, hinitlen, h12, h9, h6, h3, hinitN]
  omega


theorem improveSplitRun_eq (pat : List Int) (loads : List Dbl)
    (mk : Nat → Int → OptimizationPart) (nm : String) (r : Nat × Nat) :
    improveSplitRun pat loads mk nm r =
      if runQualifies pat loads r then [runReduceMove pat mk nm r] else [] := by
  simp only [improveSplitRun, runQualifies, runReduceMove]
  cases hs : (improveScan pat loads (List.range' r.1 r.2) ⟨0, 1⟩).2 with
  | false =>
      have hne : decide (∀ j ∈ List.range' r.1 r.2, pat.getD j 0 ≠ 1) = false := by
        rw [decide_eq_false_iff_not,
          ← improveScan_true_iff pat loads (List.range' r.1 r.2) ⟨0, 1⟩, hs]
        simp
      rw [hne]
      simp
  | true =>
      have hall := (improveScan_true_iff pat loads (List.range' r.1 r.2) ⟨0, 1⟩).mp hs
      have hde : decide (∀ j ∈ List.range' r.1 r.2, pat.getD j 0 ≠ 1) = true :=
        decide_eq_true hall
      have hsum := improveScan_fst_of_ok pat loads (List.range' r.1 r.2) ⟨0, 1⟩ hall
      rw [hde, hsum]
      simp [loadSumRange]

theorem improveSplitOpts_eq_filter_map (pat : List Int) (loads : List Dbl)
    (mk : Nat → Int → OptimizationPart) (nm : String) (runs : List (Nat × Nat)) :
    improveSplitOpts pat loads mk nm runs =
      (runs.filter (runQualifies pat loads)).map (runReduceMove pat mk nm) := by
  induction runs with
  | nil => rfl
  | cons r rest ih =>
      simp only [improveSplitOpts, List.flatMap_cons, List.filter_cons] at ih ⊢
      rw [improveSplitRun_eq]
      by_cases hq : runQualifies pat loads r = true
      · rw [if_pos hq, if_pos hq, List.map_cons]
        simp only [List.singleton_append]
        rw [ih]
      · rw [if_neg hq, if_neg hq]
        simp only [List.nil_append]
        rw [ih]

/-- C5 (amended): for one side of one machine, the ImproveSplit generator
walks the runs of `existingSplits` in order from first to last and emits
one candidate for **every** run that qualifies (no week of code 1, mean
load over the run at most `0.9`), each candidate reducing every week of its
run by one code — not at most one candidate per side. -/
theorem c5_improve_split_emissions (pat : List Int) (loads : List Dbl)
    (mk : Nat → Int → OptimizationPart) (nm : String) (lastOp : Int) :
    improveSplitOpts pat loads mk nm (existingSplits pat lastOp) =
      ((existingSplits pat lastOp).filter (runQualifies pat loads)).map
        (runReduceMove pat mk nm) :=
  improveSplitOpts_eq_filter_map pat loads mk nm (existingSplits pat lastOp)

/-- C5 counterexample: a weekday side with two qualifying runs yields two
`ImproveSplitWeekDay0` candidates in one generation round, contradicting
"at most one ImproveSplit per side per machine per iteration". -/
theorem c5_counterexample :
    ((c5CounterSolver.generateOptimizations c5CounterSolver.lastState).filter
        (fun o => o.name == "ImproveSplitWeekDay0")).length = 2 := by decide

/-- C3 (amended): the selection loop is seeded with `-1`, so the controller
never applies a move whose Δ fails the comparison `Δ > -1` (Δ = 0 moves are
selectable); when every non-blacklisted candidate fails that comparison, no
move is applied that round. -/
theorem c3_selection_threshold (slv : Solver) :
    (∀ o, (slv.refine).previousOptimization = some o →
        o.costImprovement.bgt (Dbl.ofInt (-1)) = true) ∧
    ((∀ o ∈ (slv.revertStep).generateOptimizations (slv.revertStep).lastState,
        (slv.revertStep).badOptimizations.contains o.id = false →
        o.costImprovement.bgt (Dbl.ofInt (-1)) = false) →
      (slv.refine).previousOptimization = none) := by
  constructor
  · intro o ho
    unfold Solver.refine at ho
    rw [applyStep_prev] at ho
    exact (selectBest_some _ _ _ ho).2.2
  · intro hall
    unfold Solver.refine
    rw [applyStep_prev]
    exact selectBest_none _ _ hall

/-- C3 witness: at the concrete solver the applied move satisfies the
`Δ > -1` bound of the amended claim. -/
theorem c3_selection_threshold_witness :
    ((c3CounterSolver.refine).previousOptimization.map
      (fun o => o.costImprovement.bgt (Dbl.ofInt (-1)))).getD true = true := by
  cases ho : (c3CounterSolver.refine).previousOptimization with
  | none => rfl
  | some o =>
      simp only [Option.map_some', Option.getD_some]
      exact (c3_selection_threshold c3CounterSolver).1 o ho

/-- C3 counterexample: with constant cost tables the controller selects and
applies a move whose Δ is not strictly positive (Δ = 0): the comparison
`Δ > 0` evaluates to `false` for the applied move, and the move did change
the state (weekday week 0 went from 9 to 8). -/
theorem c3_counterexample :
    ((c3CounterSolver.refine).previousOptimization.map
      (fun o => o.costImprovement.bgt (Dbl.ofInt 0))) = some false ∧
    getSlot (c3CounterSolver.refine).lastState 0 0 OptimizationPartType.weekDay = 8 := by
  decide

/-- C10 (confirmed): a move's identity string is computed from its ordered
parts only — the symbolic name does not enter — so two moves with equal
part lists have equal identities, and blacklisting one identity prevents
the selection loop from ever returning the other move. -/
theorem c10_identity_from_parts (n1 n2 : String) (ps : List OptimizationPart)
    (bad : List String) (opts : List Optimization)
    (h : bad.contains (Optimization.make n1 ps).id = true) :
    (Optimization.make n1 ps).id = (Optimization.make n2 ps).id ∧
      selectBest bad opts ≠ some (Optimization.make n2 ps) := by
  refine ⟨rfl, ?_⟩
  intro hc
  have h2 := (selectBest_some bad opts _ hc).2.1
  rw [show (Optimization.make n2 ps).id = (Optimization.make n1 ps).id from rfl] at h2
  rw [h] at h2
  cases h2

/-- C10 witness: blacklisting the fleet-wide `ReduceGlobal` identity also
blocks the structurally identical `ReduceGlobal0` move. -/
theorem c10_identity_witness :
    (Optimization.make "ReduceGlobal" [c10Part]).id =
      (Optimization.make "ReduceGlobal0" [c10Part]).id ∧
    selectBest [(Optimization.make "ReduceGlobal" [c10Part]).id]
        [Optimization.make "ReduceGlobal0" [c10Part]] ≠
      some (Optimization.make "ReduceGlobal0" [c10Part]) :=
  c10_identity_from_parts "ReduceGlobal" "ReduceGlobal0" [c10Part]
    [(Optimization.make "ReduceGlobal" [c10Part]).id]
    [Optimization.make "ReduceGlobal0" [c10Part]] (by decide)

/-- C1 (amended): after `bestScore` is updated to `max(bestScore, score)`,
a previously applied move is reverted exactly when `score == 0` or
`score < bestScore` (not when `noDelays > 0`); on revert the move's
identity is inserted into the blacklist and `reduceGlobalFailed` is set
exactly when the move's symbolic name is `"ReduceGlobal"`. -/
theorem c1_revert_step (slv : Solver) (o : Optimization)
    (h : slv.previousOptimization = some o) :
    (slv.lastState.score = 0 ∨
        slv.lastState.score < max slv.bestScore slv.lastState.score →
      slv.revertStep = { slv with
        states := slv.states.dropLast ++ [o.undo slv.lastState]
        bestScore := max slv.bestScore slv.lastState.score
        badOptimizations := o.id :: slv.badOptimizations
        reduceGlobalFailed := slv.reduceGlobalFailed || (o.name == "ReduceGlobal") }) ∧
    (¬(slv.lastState.score = 0 ∨
        slv.lastState.score < max slv.bestScore slv.lastState.score) →
      slv.revertStep = { slv with bestScore := max slv.bestScore slv.lastState.score }) := by
  simp only [Solver.revertStep, h]
  constructor
  · intro hc
    rw [if_pos hc]
  · intro hc
    rw [if_neg hc]

/-- C1 witness: at a concrete solver whose feedback score dropped below the
best score, the revert branch fires with blacklist insertion. -/
theorem c1_revert_step_witness :
    c1WitnessSolver.revertStep = { c1WitnessSolver with
      states := c1WitnessSolver.states.dropLast ++
        [c1PrevMove.undo c1WitnessSolver.lastState]
      bestScore := max c1WitnessSolver.bestScore c1WitnessSolver.lastState.score
      badOptimizations := c1PrevMove.id :: c1WitnessSolver.badOptimizations
      reduceGlobalFailed := c1WitnessSolver.reduceGlobalFailed ||
        (c1PrevMove.name == "ReduceGlobal") } :=
  (c1_revert_step c1WitnessSolver c1PrevMove (by decide)).1 (by decide)

/-- C1 counterexample: a state with `noDelays = 1 > 0` whose score (5) did
not drop below the best score (3) — the claim demands a revert, but the
code leaves the state untouched and inserts nothing into the blacklist. -/
theorem c1_counterexample :
    c1CounterSolver.lastState.noDelays = 1 ∧
    c1CounterSolver.previousOptimization = some c1PrevMove ∧
    (c1CounterSolver.revertStep).badOptimizations = [] ∧
    (c1CounterSolver.revertStep).states = c1CounterSolver.states := by decide

/-- C9 (amended): applying a move and then undoing it restores the state
exactly, provided the move's parts address pairwise-distinct slots and the
state holds each part's `fromPat` value at its slot (the situation in which
generated moves are built and applied); without these provisos the
round-trip fails. -/
theorem c9_round_trip (o : Optimization) (s : State)
    (hdist : o.parts.Pairwise (fun p q => partPos p ≠ partPos q))
    (hagree : ∀ p ∈ o.parts, slotAgrees s p) :
    o.undo (o.apply s) = s := by
  unfold Optimization.apply Optimization.undo
  exact partList_roundtrip o.parts s hdist hagree

/-- C9 witness: a two-part move built against `roundTripState` round-trips
through apply and undo. -/
theorem c9_round_trip_witness :
    matchedMove.undo (matchedMove.apply roundTripState) = roundTripState :=
  c9_round_trip matchedMove roundTripState (by decide) (by decide)

/-- C9 counterexample: a single-part move whose `fromPat` (5) disagrees
with the state's slot value (6) does not round-trip: undo rewrites the slot
to 5, not 6. -/
theorem c9_counterexample :
    mismatchedMove.undo (mismatchedMove.apply mismatchedState) ≠ mismatchedState := by
  decide


/-- C2 (code bug): a concrete 28-round interactive run (weekday costs
`steepCosts`, weekend costs `geomCosts`, loads mostly `(1, 0)`, scores
accepting or rejecting as scripted in `budgetRunFeedbacks`) drives the
solver into applying a CreateSplitWeekDay move containing a part with
`toPat = 0`: machine 0's weekday patterns end as `[0, 1]`, so the slot
`(0, 0, weekDay)` holds pattern code 0, outside `[1, 9]`. -/
theorem c2_pattern_zero_reachable :
    getSlot c2Final.lastState 0 0 OptimizationPartType.weekDay = 0 ∧
    (c2Final.lastState.machines.getD 0 default).weekDayPatterns = [0, 1] := by
  decide

/-- C4 (code bug): the same run truncated to 27 rounds with
`maxChanges = 1`: the applied combined `ReduceGlobal0` move (which no
generator guard checks against the change budget) leaves the machine with
2 adjacent-week inequalities summed over both sides, exceeding
`maxChanges = 1`. -/
theorem c4_change_budget_exceeded :
    c4Final.maxChanges = 1 ∧
    (c4Final.previousOptimization.map Optimization.name) = some "ReduceGlobal0" ∧
    getChanges 2 (c4Final.lastState.machines.getD 0 default).weekDayPatterns +
      getChanges 2 (c4Final.lastState.machines.getD 0 default).weekEndPatterns = 2 := by
  decide

/-- C6 counterexample: a constant weekday side with mean load `0.7` — above
the specified threshold `0.6` — still gets a `ReduceGlobalWeekDay0`
candidate, because the implemented threshold is `0.75`. -/
theorem c6_counterexample :
    (∃ o ∈ c6CounterSolver.generateOptimizations c6CounterSolver.lastState,
      o.name = "ReduceGlobalWeekDay0") ∧
    ((loadSumRange meanLoadMachine.loads (List.range 2)).div (Dbl.ofInt 2)).bgt
      ⟨3, 5⟩ = true := by
  decide

/-- C6 witness: the amended guard equivalence evaluated at the concrete
mean-load-0.7 machine. -/
theorem c6_guard_witness :
    (Optimization.make ("ReduceGlobalWeekDay" ++ toString 0)
        (rgWeekDayParts c6CounterSolver.lastState 0
          (lastOperating
            (c6CounterSolver.lastState.machines.getD 0 default).weekDayPatterns
            c6CounterSolver.noWeeks))
      ∈ c6CounterSolver.generateOptimizations c6CounterSolver.lastState)
    ↔ specCanRGWeekDay c6CounterSolver
        (c6CounterSolver.lastState.machines.getD 0 default) :=
  c6_reduce_global_weekday_guard c6CounterSolver c6CounterSolver.lastState 0 (by decide)

/-- C7 counterexample: weekend side constant, `loads = (2, 0)`: the mean
over the whole weekend operating range including week 0 is `1 > 0.75`, so
the claimed symmetric guard would reject, yet `ReduceGlobalWeekEnd0` is
generated because the code's sum skips week 0. -/
theorem c7_counterexample :
    (∃ o ∈ c7CounterSolver.generateOptimizations c7CounterSolver.lastState,
      o.name = "ReduceGlobalWeekEnd0") ∧
    ((loadSumRange frontLoadMachine.loads (List.range 2)).div (Dbl.ofInt 2)).bgt
      ⟨3, 4⟩ = true := by
  decide

/-- C7 witness: the amended weekend guard equivalence evaluated at the
concrete front-loaded machine. -/
theorem c7_guard_witness :
    (Optimization.make ("ReduceGlobalWeekEnd" ++ toString 0)
        (rgWeekEndParts c7CounterSolver.lastState 0
          (lastOperating
            (c7CounterSolver.lastState.machines.getD 0 default).weekEndPatterns
            c7CounterSolver.noWeeks))
      ∈ c7CounterSolver.generateOptimizations c7CounterSolver.lastState)
    ↔ specCanRGWeekEnd c7CounterSolver
        (c7CounterSolver.lastState.machines.getD 0 default) :=
  c7_reduce_global_weekend_guard c7CounterSolver c7CounterSolver.lastState 0 (by decide)

end APC9
